import Mathlib

/-!
Verification of the driftwatch normalization-and-diff engine.

The Go source is embedded shallowly: Go maps become association lists
(`List (key × value)`) queried through `assocFind`; Go slices become `List`;
`sort.Slice` becomes the insertion sort `sortBy` with the boolean ordering
derived from the Go `less` function; Go string comparison becomes the
byte-order comparison `strLt` (UTF-8 byte order coincides with code-point
order, which is what the comparator below implements).
-/

namespace Driftwatch

/-! ### String ordering (embedding of Go string comparison) -/

/-- Lexicographic order on lists of naturals, as a boolean. -/
def natListLt : List Nat → List Nat → Bool
  | [], [] => false
  | [], _ :: _ => true
  | _ :: _, [] => false
  | a :: as, b :: bs => decide (a < b) || (decide (a = b) && natListLt as bs)

/-- Go string `<`: lexicographic comparison of the code points. -/
def strLt (a b : String) : Bool :=
  natListLt (a.data.map Char.toNat) (b.data.map Char.toNat)

/-- Go string `<=`, the sort order induced by a `less` function. -/
def strLe (a b : String) : Bool := ! strLt b a

theorem natListLt_irrefl : ∀ l : List Nat, natListLt l l = false := by
  intro l
  induction l with
  | nil => rfl
  | cons x xs ih => simp [natListLt, ih]

theorem natListLt_trans : ∀ a b c : List Nat,
    natListLt a b = true → natListLt b c = true → natListLt a c = true := by
  intro a
  induction a with
  | nil =>
    intro b c hab hbc
    cases b <;> cases c <;> simp_all [natListLt]
  | cons x as ih =>
    intro b c hab hbc
    cases b with
    | nil => simp [natListLt] at hab
    | cons y bs =>
      cases c with
      | nil => simp [natListLt] at hbc
      | cons z cs =>
        simp only [natListLt, Bool.or_eq_true, Bool.and_eq_true,
          decide_eq_true_eq] at hab hbc ⊢
        rcases hab with h1 | ⟨he1, h2⟩ <;> rcases hbc with h3 | ⟨he2, h4⟩
        · exact Or.inl (Nat.lt_trans h1 h3)
        · exact Or.inl (he2 ▸ h1)
        · exact Or.inl (he1 ▸ h3)
        · exact Or.inr ⟨he1.trans he2, ih bs cs h2 h4⟩

theorem natListLt_eq_of_not : ∀ a b : List Nat,
    natListLt a b = false → natListLt b a = false → a = b := by
  intro a
  induction a with
  | nil =>
    intro b hab _
    cases b with
    | nil => rfl
    | cons y bs => simp [natListLt] at hab
  | cons x as ih =>
    intro b hab hba
    cases b with
    | nil => simp [natListLt] at hba
    | cons y bs =>
      simp only [natListLt, Bool.or_eq_false_iff, Bool.and_eq_false_iff,
        decide_eq_false_iff_not] at hab hba
      obtain ⟨hxy, hab2⟩ := hab
      obtain ⟨hyx, hba2⟩ := hba
      have hxyeq : x = y := Nat.le_antisymm (Nat.le_of_not_lt hyx) (Nat.le_of_not_lt hxy)
      rcases hab2 with h | hab3
      · exact absurd hxyeq h
      rcases hba2 with h | hba3
      · exact absurd hxyeq.symm h
      exact by rw [hxyeq, ih bs hab3 hba3]

theorem strEq_of_data_map_eq {a b : String}
    (h : a.data.map Char.toNat = b.data.map Char.toNat) : a = b := by
  have hinj : Function.Injective Char.toNat := by
    intro c d hcd
    have h1 := Char.ofNat_toNat c
    rw [hcd, Char.ofNat_toNat d] at h1
    exact h1.symm
  have hdata : a.data = b.data := List.map_injective_iff.2 hinj h
  cases a
  cases b
  exact congrArg String.mk hdata

theorem strLe_total (a b : String) : strLe a b = true ∨ strLe b a = true := by
  unfold strLe
  by_cases h : strLt b a = true
  · right
    unfold strLt at h ⊢
    have := natListLt_irrefl (a.data.map Char.toNat)
    by_cases h2 : natListLt (a.data.map Char.toNat) (b.data.map Char.toNat) = true
    · have := natListLt_trans _ _ _ h2 h
      rw [natListLt_irrefl] at this
      exact absurd this (by simp)
    · simp [Bool.not_eq_true] at h2
      simp [h2]
  · left
    simp [Bool.not_eq_true] at h
    simp [h]

theorem strLe_trans {a b c : String} (h1 : strLe a b = true) (h2 : strLe b c = true) :
    strLe a c = true := by
  unfold strLe strLt at h1 h2 ⊢
  simp only [Bool.not_eq_true'] at h1 h2 ⊢
  by_contra hne
  simp only [Bool.not_eq_false] at hne
  by_cases hab : natListLt (a.data.map Char.toNat) (b.data.map Char.toNat) = true
  · have := natListLt_trans _ _ _ hne hab
    rw [this] at h2
    exact absurd h2 (by simp)
  · simp only [Bool.not_eq_true] at hab
    have hABeq := natListLt_eq_of_not _ _ hab h1
    rw [← hABeq] at h2
    rw [hne] at h2
    exact absurd h2 (by simp)

theorem strLe_antisymm {a b : String} (h1 : strLe a b = true) (h2 : strLe b a = true) :
    a = b := by
  unfold strLe at h1 h2
  simp only [Bool.not_eq_true'] at h1 h2
  exact strEq_of_data_map_eq (natListLt_eq_of_not _ _ h2 h1)

theorem strLe_refl (a : String) : strLe a a = true := by
  unfold strLe strLt
  simp [natListLt_irrefl]

/-! ### Sorting (embedding of Go `sort.Slice`) -/

/-- Insert `x` into `l` before the first element `y` with `le x y`. -/
def insertBy (le : α → α → Bool) (x : α) : List α → List α
  | [] => [x]
  | y :: ys => if le x y then x :: y :: ys else y :: insertBy le x ys

/-- Insertion sort by the boolean relation `le`. -/
def sortBy (le : α → α → Bool) : List α → List α
  | [] => []
  | x :: xs => insertBy le x (sortBy le xs)

theorem insertBy_perm (le : α → α → Bool) (x : α) :
    ∀ l : List α, (insertBy le x l).Perm (x :: l) := by
  intro l
  induction l with
  | nil => exact List.Perm.refl _
  | cons y ys ih =>
    by_cases h : le x y = true
    · simp [insertBy, h]
    · simp only [insertBy, h, if_false, Bool.false_eq_true]
      exact ((ih.cons y).trans (List.Perm.swap x y ys)).symm.symm

theorem sortBy_perm (le : α → α → Bool) : ∀ l : List α, (sortBy le l).Perm l := by
  intro l
  induction l with
  | nil => exact List.Perm.refl _
  | cons x xs ih => exact (insertBy_perm le x (sortBy le xs)).trans (ih.cons x)

theorem insertBy_pairwise (le : α → α → Bool)
    (htot : ∀ a b, le a b = true ∨ le b a = true)
    (htrans : ∀ a b c, le a b = true → le b c = true → le a c = true)
    (x : α) : ∀ l : List α, List.Pairwise (fun a b => le a b = true) l →
      List.Pairwise (fun a b => le a b = true) (insertBy le x l) := by
  intro l
  induction l with
  | nil => intro _; simp [insertBy]
  | cons y ys ih =>
    intro hp
    rw [List.pairwise_cons] at hp
    obtain ⟨hy, hys⟩ := hp
    by_cases h : le x y = true
    · simp only [insertBy, h, if_true]
      rw [List.pairwise_cons]
      refine ⟨?_, List.pairwise_cons.2 ⟨hy, hys⟩⟩
      intro z hz
      rcases List.mem_cons.1 hz with hz1 | hz1
      · exact hz1 ▸ h
      · exact htrans x y z h (hy z hz1)
    · simp only [insertBy, h, if_false, Bool.false_eq_true]
      rw [List.pairwise_cons]
      refine ⟨?_, ih hys⟩
      intro z hz
      have hz2 := (insertBy_perm le x ys).mem_iff.1 hz
      rcases List.mem_cons.1 hz2 with hz3 | hz3
      · rw [hz3]
        rcases htot x y with h2 | h2
        · exact absurd h2 h
        · exact h2
      · exact hy z hz3

theorem sortBy_pairwise (le : α → α → Bool)
    (htot : ∀ a b, le a b = true ∨ le b a = true)
    (htrans : ∀ a b c, le a b = true → le b c = true → le a c = true) :
    ∀ l : List α, List.Pairwise (fun a b => le a b = true) (sortBy le l) := by
  intro l
  induction l with
  | nil => simp [sortBy]
  | cons x xs ih => exact insertBy_pairwise le htot htrans x (sortBy le xs) ih

/-- Two sorted lists that are permutations of each other are equal, provided the
order is antisymmetric on the elements involved. -/
theorem pairwise_perm_eq {le : α → α → Bool} :
    ∀ {l l' : List α}, l.Perm l' →
      List.Pairwise (fun a b => le a b = true) l →
      List.Pairwise (fun a b => le a b = true) l' →
      (∀ a ∈ l, ∀ b ∈ l, le a b = true → le b a = true → a = b) → l = l' := by
  intro l
  induction l with
  | nil =>
    intro l' hperm _ _ _
    exact (List.Perm.eq_nil hperm.symm).symm
  | cons a t ih =>
    intro l' hperm hp hp' hanti
    cases l' with
    | nil => exact absurd (List.Perm.eq_nil hperm) (by simp)
    | cons a' t' =>
      rw [List.pairwise_cons] at hp hp'
      have hhead : a = a' := by
        by_cases hq : a = a'
        · exact hq
        · have ha'mem : a' ∈ a :: t := hperm.symm.subset (by simp)
          have ha'mem2 : a' ∈ t := by
            rcases List.mem_cons.1 ha'mem with h | h
            · exact absurd h.symm hq
            · exact h
          have hamem : a ∈ a' :: t' := hperm.subset (by simp)
          have hamem2 : a ∈ t' := by
            rcases List.mem_cons.1 hamem with h | h
            · exact absurd h hq
            · exact h
          have h1 : le a a' = true := hp.1 a' ha'mem2
          have h2 : le a' a = true := hp'.1 a hamem2
          exact hanti a (List.mem_cons_self a t) a' (List.mem_cons_of_mem a ha'mem2) h1 h2
      subst hhead
      have htails := hperm.cons_inv
      have heq := ih htails hp.2 hp'.2
        (fun x hx y hy => hanti x (List.mem_cons_of_mem a hx) y (List.mem_cons_of_mem a hy))
      rw [heq]

/-! ### Association-list lookup (embedding of Go map indexing) -/

/-- Look up the first element of `l` whose key (under `key`) is `k`.  This is
the reading of a Go map value represented as its list of entries. -/
def assocFind [DecidableEq κ] (key : α → κ) (l : List α) (k : κ) : Option α :=
  l.find? (fun x => decide (key x = k))

theorem assocFind_eq_none [DecidableEq κ] {key : α → κ} {l : List α} {k : κ} :
    assocFind key l k = none ↔ ∀ x ∈ l, key x ≠ k := by
  unfold assocFind
  rw [List.find?_eq_none]
  constructor
  · intro h x hx
    have := h x hx
    simpa using this
  · intro h x hx
    simpa using h x hx

theorem assocFind_some [DecidableEq κ] {key : α → κ} {l : List α} {k : κ} {x : α}
    (h : assocFind key l k = some x) : x ∈ l ∧ key x = k := by
  refine ⟨List.mem_of_find?_eq_some h, ?_⟩
  have := List.find?_some h
  simpa using this

theorem assocFind_mem [DecidableEq κ] {key : α → κ} {l : List α} {k : κ} {x : α}
    (hnd : (l.map key).Nodup) (hx : x ∈ l) (hk : key x = k) :
    assocFind key l k = some x := by
  cases hres : assocFind key l k with
  | none =>
    rw [assocFind_eq_none] at hres
    exact absurd hk (hres x hx)
  | some y =>
    obtain ⟨hy, hky⟩ := assocFind_some hres
    have := List.inj_on_of_nodup_map hnd hy hx (hky.trans hk.symm)
    rw [this]

theorem assocFind_perm [DecidableEq κ] {key : α → κ} {l l' : List α} {k : κ}
    (hperm : l.Perm l') (hnd : (l.map key).Nodup) :
    assocFind key l k = assocFind key l' k := by
  have hnd' : (l'.map key).Nodup := (hperm.map key).nodup_iff.1 hnd
  cases hres : assocFind key l k with
  | none =>
    rw [assocFind_eq_none] at hres
    cases hres' : assocFind key l' k with
    | none => rfl
    | some y =>
      obtain ⟨hy, hky⟩ := assocFind_some hres'
      exact absurd hky (hres y (hperm.symm.subset hy))
  | some x =>
    obtain ⟨hx, hkx⟩ := assocFind_some hres
    exact (assocFind_mem hnd' (hperm.subset hx) hkx).symm

/-- A `filterMap` whose emitted elements determine the source key has
pairwise-distinct keys in its output whenever the source keys are distinct. -/
theorem nodup_map_filterMap {f : α → Option β} {g : β → κ} {key : α → κ}
    (hf : ∀ a b, f a = some b → g b = key a) :
    ∀ {l : List α}, (l.map key).Nodup → ((l.filterMap f).map g).Nodup := by
  intro l
  induction l with
  | nil => intro _; simp
  | cons a t ih =>
    intro hnd
    rw [List.map_cons, List.nodup_cons] at hnd
    obtain ⟨hka, hnd2⟩ := hnd
    cases hfa : f a with
    | none => simpa [List.filterMap_cons, hfa] using ih hnd2
    | some b =>
      rw [List.filterMap_cons, hfa, List.map_cons, List.nodup_cons]
      refine ⟨?_, ih hnd2⟩
      intro hmem
      rw [List.mem_map] at hmem
      obtain ⟨c, hc, hgc⟩ := hmem
      rw [List.mem_filterMap] at hc
      obtain ⟨x, hx, hfx⟩ := hc
      have h1 := hf a b hfa
      have h2 := hf x c hfx
      have hmem2 : key a ∈ List.map key t := by
        rw [← h1, ← hgc, h2]
        exact List.mem_map_of_mem key hx
      exact hka hmem2

/-- Looking up an association list built by tagging each key of `keys` with
`F`-produced values recovers `F` on members of `keys`. -/
theorem assocFind_tagged [DecidableEq κ] (F : κ → Option β) :
    ∀ (keys : List κ) (k : κ),
      (assocFind Prod.fst (keys.filterMap (fun s => (F s).map (fun v => (s, v)))) k).map
          Prod.snd =
        if k ∈ keys then F k else none := by
  intro keys
  induction keys with
  | nil => intro k; simp [assocFind]
  | cons s rest ih =>
    intro k
    by_cases hks : k = s
    · subst hks
      cases hFk : F k with
      | none =>
        simp only [List.filterMap_cons, hFk, Option.map_none']
        rw [ih k]
        by_cases hk : k ∈ rest <;> simp [hk, hFk]
      | some v =>
        simp [List.filterMap_cons, hFk, assocFind, List.find?_cons]
    · cases hFs : F s with
      | none =>
        simp only [List.filterMap_cons, hFs, Option.map_none']
        rw [ih k]
        simp [List.mem_cons, hks]
      | some v =>
        simp only [List.filterMap_cons, hFs, Option.map_some']
        unfold assocFind
        rw [List.find?_cons_of_neg _ (by simpa using fun h => hks h.symm)]
        have hrest := ih k
        unfold assocFind at hrest
        rw [hrest]
        simp [List.mem_cons, hks]

/-! ### RBAC model (internal/model/rbac_types.go) -/

/-- Identity of an RBAC principal. -/
structure SubjectKey where
  Kind : String
  Name : String
  Namespace : String
deriving DecidableEq

/-- One atomic effective permission. -/
structure Permission where
  ScopeNamespace : String
  APIGroup : String
  Resource : String
  ResourceName : String
  Verb : String
  NonResourceURL : String
deriving DecidableEq

/-- The fields of `rbacv1.PolicyRule` consumed by the expander. -/
structure PolicyRule where
  Verbs : List String
  APIGroups : List String
  Resources : List String
  ResourceNames : List String
  NonResourceURLs : List String
deriving DecidableEq

/-- Expansion of one policy rule (the loop body of
`ExpandPolicyRulesToPermissions`). -/
def expandPolicyRule (rule : PolicyRule) (bindingNamespace : String)
    (clusterScope : Bool) : List Permission :=
  if rule.NonResourceURLs.length > 0 then
    rule.Verbs.flatMap (fun verb =>
      rule.NonResourceURLs.map (fun url =>
        { ScopeNamespace := "*", APIGroup := "", Resource := "", ResourceName := "",
          Verb := verb, NonResourceURL := url }))
  else
    let apiGroups := if rule.APIGroups.length = 0 then [""] else rule.APIGroups
    let resources := if rule.Resources.length = 0 then [""] else rule.Resources
    let resourceNames := if rule.ResourceNames.length = 0 then ["*"] else rule.ResourceNames
    let scope := if clusterScope then "*" else bindingNamespace
    rule.Verbs.flatMap (fun verb =>
      apiGroups.flatMap (fun group =>
        resources.flatMap (fun res =>
          resourceNames.map (fun rn =>
            { ScopeNamespace := scope, APIGroup := group, Resource := res,
              ResourceName := rn, Verb := verb, NonResourceURL := "" }))))

/-- `model.ExpandPolicyRulesToPermissions`. -/
def ExpandPolicyRulesToPermissions (rules : List PolicyRule) (bindingNamespace : String)
    (clusterScope : Bool) : List Permission :=
  rules.flatMap (fun rule => expandPolicyRule rule bindingNamespace clusterScope)

/-- `model.RBACSnapshot`: the per-subject permission sets, with the Go map
`map[SubjectKey]map[Permission]struct{}` represented as an association list
whose values list the permission set in some iteration order. -/
structure RBACSnapshot where
  Subjects : List (SubjectKey × List Permission)
deriving DecidableEq

/-- Reading `s.Subjects[subj]`; an absent subject reads as the empty set. -/
def subjectPerms (s : RBACSnapshot) (subj : SubjectKey) : List Permission :=
  match assocFind Prod.fst s.Subjects subj with
  | some kv => kv.2
  | none => []

/-- Set insertion `permSet[p] = struct{}{}`. -/
def insertPerm (l : List Permission) (p : Permission) : List Permission :=
  if p ∈ l then l else l ++ [p]

/-- Writing `s.Subjects[subj] = v` in the association-list representation. -/
def setSubject (l : List (SubjectKey × List Permission)) (k : SubjectKey)
    (v : List Permission) : List (SubjectKey × List Permission) :=
  if l.any (fun kv => decide (kv.1 = k)) then
    l.map (fun kv => if kv.1 = k then (k, v) else kv)
  else l ++ [(k, v)]

/-- `RBACSnapshot.AddPermissions`. -/
def AddPermissions (s : RBACSnapshot) (subj : SubjectKey) (perms : List Permission) :
    RBACSnapshot :=
  if perms.length = 0 then s
  else ⟨setSubject s.Subjects subj (perms.foldl insertPerm (subjectPerms s subj))⟩

/-- The fields of `rbacv1.Subject` the collector consumes. -/
structure RBACSubject where
  Kind : String
  Name : String
  Namespace : String
deriving DecidableEq

/-- `model.SubjectKeyFromRBACSubject`. -/
def SubjectKeyFromRBACSubject (subj : RBACSubject) (defaultNamespace : String) : SubjectKey :=
  let ns := if subj.Namespace = "" ∧ subj.Kind = "ServiceAccount" then defaultNamespace
            else subj.Namespace
  ⟨subj.Kind, subj.Name, ns⟩

/-! ### RBAC snapshot builder (internal/collectors/rbac_collector.go) -/

structure Role where
  Namespace : String
  Name : String
  Rules : List PolicyRule
deriving DecidableEq

structure ClusterRole where
  Name : String
  Rules : List PolicyRule
deriving DecidableEq

structure RoleRef where
  Kind : String
  Name : String
deriving DecidableEq

structure RoleBinding where
  Namespace : String
  RoleRef : RoleRef
  Subjects : List RBACSubject
deriving DecidableEq

structure ClusterRoleBinding where
  RoleRef : RoleRef
  Subjects : List RBACSubject
deriving DecidableEq

/-- Reading `rolesByKey[key]`: all rules of roles whose `namespace/name` is
`key`, concatenated in input order. -/
def rolesByKey (roles : List Role) (key : String) : List PolicyRule :=
  (roles.filter (fun r => decide (r.Namespace ++ "/" ++ r.Name = key))).flatMap
    (fun r => r.Rules)

/-- Reading `clusterRolesByName[name]`. -/
def clusterRolesByName (crs : List ClusterRole) (name : String) : List PolicyRule :=
  (crs.filter (fun cr => decide (cr.Name = name))).flatMap (fun cr => cr.Rules)

/-- The `switch rb.RoleRef.Kind` rule resolution for a RoleBinding; the
`default: continue` arm resolves to no rules. -/
def resolveRoleBindingRules (roles : List Role) (crs : List ClusterRole)
    (rb : RoleBinding) : List PolicyRule :=
  if rb.RoleRef.Kind = "Role" then rolesByKey roles (rb.Namespace ++ "/" ++ rb.RoleRef.Name)
  else if rb.RoleRef.Kind = "ClusterRole" then clusterRolesByName crs rb.RoleRef.Name
  else []

/-- One iteration of the RoleBinding loop of `buildRBACSnapshot`. -/
def applyRoleBinding (roles : List Role) (crs : List ClusterRole)
    (snap : RBACSnapshot) (rb : RoleBinding) : RBACSnapshot :=
  let rules := resolveRoleBindingRules roles crs rb
  if rules.length = 0 then snap
  else
    let perms := ExpandPolicyRulesToPermissions rules rb.Namespace false
    if perms.length = 0 then snap
    else rb.Subjects.foldl
      (fun s subj => AddPermissions s (SubjectKeyFromRBACSubject subj rb.Namespace) perms) snap

/-- One iteration of the ClusterRoleBinding loop of `buildRBACSnapshot`. -/
def applyClusterRoleBinding (crs : List ClusterRole) (snap : RBACSnapshot)
    (crb : ClusterRoleBinding) : RBACSnapshot :=
  let rules := clusterRolesByName crs crb.RoleRef.Name
  if rules.length = 0 then snap
  else
    let perms := ExpandPolicyRulesToPermissions rules "" true
    if perms.length = 0 then snap
    else crb.Subjects.foldl
      (fun s subj => AddPermissions s (SubjectKeyFromRBACSubject subj "") perms) snap

/-- `collectors.buildRBACSnapshot`. -/
def buildRBACSnapshot (roles : List Role) (crs : List ClusterRole)
    (rbs : List RoleBinding) (crbs : List ClusterRoleBinding) : RBACSnapshot :=
  crbs.foldl (applyClusterRoleBinding crs) (rbs.foldl (applyRoleBinding roles crs) ⟨[]⟩)

/-! ### RBAC differ (internal/diff/rbac_diff.go) -/

structure RBACDrift where
  Extra : List (SubjectKey × List Permission)
  Missing : List (SubjectKey × List Permission)
deriving DecidableEq

/-- The per-subject `Extra = live - baseline` computation of `DiffRBAC`,
returning `none` when the loop body emits nothing for this subject. -/
def extraOf (baseline live : RBACSnapshot) (subj : SubjectKey) : Option (List Permission) :=
  let basePerms := subjectPerms baseline subj
  let livePerms := subjectPerms live subj
  if livePerms.length > 0 then
    let extras := livePerms.filter (fun p => decide (p ∉ basePerms))
    if extras.length > 0 then some extras else none
  else none

/-- The per-subject `Missing = baseline - live` computation of `DiffRBAC`. -/
def missingOf (baseline live : RBACSnapshot) (subj : SubjectKey) : Option (List Permission) :=
  let basePerms := subjectPerms baseline subj
  let livePerms := subjectPerms live subj
  if basePerms.length > 0 then
    let missing := basePerms.filter (fun p => decide (p ∉ livePerms))
    if missing.length > 0 then some missing else none
  else none

/-- The union of subject keys of the two snapshots. -/
def unionSubjects (baseline live : RBACSnapshot) : List SubjectKey :=
  (baseline.Subjects.map Prod.fst ++ live.Subjects.map Prod.fst).dedup

/-- `diff.DiffRBAC`. -/
def DiffRBAC (baseline live : RBACSnapshot) : RBACDrift :=
  let allSubjects := unionSubjects baseline live
  { Extra := allSubjects.filterMap
      (fun subj => (extraOf baseline live subj).map (fun l => (subj, l))),
    Missing := allSubjects.filterMap
      (fun subj => (missingOf baseline live subj).map (fun l => (subj, l))) }

/-- Reading one subject of an output mapping of `DiffRBAC`. -/
def driftLookup (l : List (SubjectKey × List Permission)) (subj : SubjectKey) :
    Option (List Permission) :=
  (assocFind Prod.fst l subj).map Prod.snd

/-! ### NetworkPolicy digest and differ (internal/model/netpol_types.go,
internal/collectors/netpol_collector.go, internal/diff/netpol_diff.go) -/

structure NetPolDigest where
  Namespace : String
  Name : String
  SpecHash : String
  PolicyTypes : List String
  IngressCount : Nat
  EgressCount : Nat
deriving DecidableEq

structure NetPolRef where
  Namespace : String
  Name : String
deriving DecidableEq

structure NetPolChange where
  Namespace : String
  Name : String
  Baseline : NetPolDigest
  Live : NetPolDigest
deriving DecidableEq

/-- `model.NetPolSnapshot`: the map from `namespace/name` to digest as an
association list. -/
structure NetPolSnapshot where
  Items : List (String × NetPolDigest)
deriving DecidableEq

structure NetPolDrift where
  Missing : List NetPolRef
  Extra : List NetPolRef
  Changed : List NetPolChange
deriving DecidableEq

/-- Reading `snap.Items[key]`. -/
def lookupItem (snap : NetPolSnapshot) (key : String) : Option NetPolDigest :=
  (assocFind Prod.fst snap.Items key).map Prod.snd

/-- The union of `namespace/name` keys of the two snapshots. -/
def unionKeys (baseline live : NetPolSnapshot) : List String :=
  (baseline.Items.map Prod.fst ++ live.Items.map Prod.fst).dedup

/-- The sort order of `DiffNetworkPolicies` on refs: the boolean `le`
induced by the Go `less` function (namespace first, then name). -/
def refLe (a b : NetPolRef) : Bool :=
  ! (if b.Namespace = a.Namespace then strLt b.Name a.Name
     else strLt b.Namespace a.Namespace)

/-- The sort order of `DiffNetworkPolicies` on changes. -/
def changeLe (a b : NetPolChange) : Bool :=
  ! (if b.Namespace = a.Namespace then strLt b.Name a.Name
     else strLt b.Namespace a.Namespace)

/-- The per-key Missing case of the `DiffNetworkPolicies` loop. -/
def netpolMissingEntry (baseline live : NetPolSnapshot) (key : String) : Option NetPolRef :=
  match lookupItem baseline key, lookupItem live key with
  | some base, none => some ⟨base.Namespace, base.Name⟩
  | _, _ => none

/-- The per-key Extra case of the `DiffNetworkPolicies` loop. -/
def netpolExtraEntry (baseline live : NetPolSnapshot) (key : String) : Option NetPolRef :=
  match lookupItem baseline key, lookupItem live key with
  | none, some liveItem => some ⟨liveItem.Namespace, liveItem.Name⟩
  | _, _ => none

/-- The per-key Changed case of the `DiffNetworkPolicies` loop. -/
def netpolChangedEntry (baseline live : NetPolSnapshot) (key : String) :
    Option NetPolChange :=
  match lookupItem baseline key, lookupItem live key with
  | some base, some liveItem =>
    if base.SpecHash ≠ liveItem.SpecHash then
      some ⟨base.Namespace, base.Name, base, liveItem⟩
    else none
  | _, _ => none

/-- `diff.DiffNetworkPolicies`. -/
def DiffNetworkPolicies (baseline live : NetPolSnapshot) : NetPolDrift :=
  let keys := unionKeys baseline live
  { Missing := sortBy refLe (keys.filterMap (netpolMissingEntry baseline live)),
    Extra := sortBy refLe (keys.filterMap (netpolExtraEntry baseline live)),
    Changed := sortBy changeLe (keys.filterMap (netpolChangedEntry baseline live)) }

/-- The fields of `networkingv1.NetworkPolicySpec` the digest consumes; the
ingress and egress rule lists are abstracted to lists of opaque rule texts. -/
structure NetPolSpec where
  PolicyTypes : List String
  Ingress : List String
  Egress : List String
deriving DecidableEq

/-- A `networkingv1.NetworkPolicy`: object metadata plus the spec. -/
structure NetworkPolicy where
  Namespace : String
  Name : String
  ResourceVersion : String
  Labels : List (String × String)
  Spec : NetPolSpec
deriving DecidableEq

/-- `model.NewNetPolDigest`, parameterized by the JSON serializer
(`json.Marshal`, which may fail) and the SHA-256 hex digest function; both
are functions of the spec alone, exactly as in the source. -/
def NewNetPolDigest (marshal : NetPolSpec → Option (List Nat))
    (sha256Hex : List Nat → String) (np : NetworkPolicy) : Except String NetPolDigest :=
  match marshal np.Spec with
  | none => Except.error "marshal NetworkPolicy spec"
  | some specBytes =>
    Except.ok { Namespace := np.Namespace, Name := np.Name,
                SpecHash := sha256Hex specBytes,
                PolicyTypes := np.Spec.PolicyTypes,
                IngressCount := np.Spec.Ingress.length,
                EgressCount := np.Spec.Egress.length }

/-- The item-accumulating loop of `collectors.buildNetPolSnapshot`; a digest
failure aborts the build with that error. -/
def buildNetPolItems (marshal : NetPolSpec → Option (List Nat))
    (sha256Hex : List Nat → String) :
    List NetworkPolicy → Except String (List (String × NetPolDigest))
  | [] => Except.ok []
  | np :: rest =>
    match NewNetPolDigest marshal sha256Hex np with
    | Except.error e => Except.error e
    | Except.ok digest =>
      match buildNetPolItems marshal sha256Hex rest with
      | Except.error e => Except.error e
      | Except.ok items => Except.ok ((np.Namespace ++ "/" ++ np.Name, digest) :: items)

/-- `collectors.buildNetPolSnapshot`. -/
def buildNetPolSnapshot (marshal : NetPolSpec → Option (List Nat))
    (sha256Hex : List Nat → String) (netpols : List NetworkPolicy) :
    Except String NetPolSnapshot :=
  (buildNetPolItems marshal sha256Hex netpols).map (fun items => ⟨items⟩)

/-! ### PSA model and differs (internal/model/psa_types.go and the two
`DiffPSA` implementations) -/

/-- `model.PSALevel` is a string type. -/
abbrev PSALevel := String

def PSALevelPrivileged : PSALevel := "privileged"
def PSALevelBaseline : PSALevel := "baseline"
def PSALevelRestricted : PSALevel := "restricted"

structure NamespacePSA where
  Namespace : String
  Enforce : PSALevel
  Audit : PSALevel
  Warn : PSALevel
deriving DecidableEq

structure PSADriftEntry where
  Namespace : String
  Baseline : PSALevel
  Live : PSALevel
  DriftType : String
deriving DecidableEq

/-- The bucketed PSA drift result (the implementation consumed by the app
layer). -/
structure PSADrift where
  Extra : List PSADriftEntry
  Missing : List PSADriftEntry
deriving DecidableEq

/-- `psaRank` of the bucketed differ: higher is more restrictive, unknown or
missing levels rank 0. -/
def psaRank (level : PSALevel) : Nat :=
  if level = PSALevelPrivileged then 1
  else if level = PSALevelBaseline then 2
  else if level = PSALevelRestricted then 3
  else 0

/-- `classifyPSADirection` of the bucketed differ: the bucket (first
component) and the drift label (second component). -/
def classifyPSADirection (base live : PSALevel) : String × String :=
  let b := psaRank base
  let l := psaRank live
  if l < b then ("extra", "weaker")
  else if l > b then ("missing", "stronger")
  else ("extra", "different")

/-- Reading `lMap[ns]` (or `bMap[ns]`) for a slice of namespace entries. -/
def lookupNS (l : List NamespacePSA) (ns : String) : Option NamespacePSA :=
  assocFind (fun x => x.Namespace) l ns

/-- The baseline-loop contribution of the bucketed `DiffPSA` to the Extra
bucket for one baseline namespace. -/
def psaExtraEntry (live : List NamespacePSA) (b : NamespacePSA) : Option PSADriftEntry :=
  match lookupNS live b.Namespace with
  | none => none
  | some l =>
    if b.Enforce ≠ l.Enforce then
      if (classifyPSADirection b.Enforce l.Enforce).1 = "missing" then none
      else some ⟨b.Namespace, b.Enforce, l.Enforce, (classifyPSADirection b.Enforce l.Enforce).2⟩
    else none

/-- The baseline-loop contribution of the bucketed `DiffPSA` to the Missing
bucket for one baseline namespace. -/
def psaMissingEntry (live : List NamespacePSA) (b : NamespacePSA) : Option PSADriftEntry :=
  match lookupNS live b.Namespace with
  | none => some ⟨b.Namespace, b.Enforce, "", "missing"⟩
  | some l =>
    if b.Enforce ≠ l.Enforce then
      if (classifyPSADirection b.Enforce l.Enforce).1 = "missing" then
        some ⟨b.Namespace, b.Enforce, l.Enforce, (classifyPSADirection b.Enforce l.Enforce).2⟩
      else none
    else none

/-- The live-only loop of both PSA differs. -/
def psaLiveOnlyEntry (baseline : List NamespacePSA) (l : NamespacePSA) :
    Option PSADriftEntry :=
  if (lookupNS baseline l.Namespace).isNone then some ⟨l.Namespace, "", l.Enforce, "extra"⟩
  else none

/-- Sort order of PSA drift entries: by namespace. -/
def psaEntryLe (a b : PSADriftEntry) : Bool := strLe a.Namespace b.Namespace

/-- The bucketed `diff.DiffPSA` (the Extra/Missing two-bucket implementation). -/
def DiffPSA (baseline live : List NamespacePSA) : PSADrift :=
  let extra := baseline.filterMap (psaExtraEntry live) ++
    live.filterMap (psaLiveOnlyEntry baseline)
  let missing := baseline.filterMap (psaMissingEntry live)
  ⟨sortBy psaEntryLe extra, sortBy psaEntryLe missing⟩

/-- The flat PSA drift result of the single-list `DiffPSA` implementation
(internal/diff/psa_diff.go). -/
structure PSADriftFlat where
  Entries : List PSADriftEntry
deriving DecidableEq

/-- The rank map `order[level]` of the flat differ (absent keys read 0). -/
def psaOrder (level : PSALevel) : Nat :=
  if level = PSALevelPrivileged then 1
  else if level = PSALevelBaseline then 2
  else if level = PSALevelRestricted then 3
  else 0

/-- `classifyPSADrift` of the flat differ: any rank-0 side is reported as
`different`. -/
def classifyPSADrift (base live : PSALevel) : String :=
  let b := psaOrder base
  let l := psaOrder live
  if b = 0 ∨ l = 0 then "different"
  else if l < b then "weaker"
  else if l > b then "stronger"
  else "different"

/-- The baseline-loop contribution of the flat `DiffPSA` for one baseline
namespace. -/
def psaFlatEntry (live : List NamespacePSA) (b : NamespacePSA) : Option PSADriftEntry :=
  match lookupNS live b.Namespace with
  | none => some ⟨b.Namespace, b.Enforce, "", "missing"⟩
  | some l =>
    if b.Enforce ≠ l.Enforce then
      some ⟨b.Namespace, b.Enforce, l.Enforce, classifyPSADrift b.Enforce l.Enforce⟩
    else none

/-- The flat `diff.DiffPSA` implementation (single sorted entry list). -/
def DiffPSAFlat (baseline live : List NamespacePSA) : PSADriftFlat :=
  ⟨sortBy psaEntryLe
    (baseline.filterMap (psaFlatEntry live) ++ live.filterMap (psaLiveOnlyEntry baseline))⟩

/-! ### Per-subject characterization of the RBAC differ -/

theorem driftLookup_diffRBAC_extra (baseline live : RBACSnapshot) (subj : SubjectKey) :
    driftLookup (DiffRBAC baseline live).Extra subj =
      if subj ∈ unionSubjects baseline live then extraOf baseline live subj else none :=
  assocFind_tagged (extraOf baseline live) (unionSubjects baseline live) subj

theorem driftLookup_diffRBAC_missing (baseline live : RBACSnapshot) (subj : SubjectKey) :
    driftLookup (DiffRBAC baseline live).Missing subj =
      if subj ∈ unionSubjects baseline live then missingOf baseline live subj else none :=
  assocFind_tagged (missingOf baseline live) (unionSubjects baseline live) subj

theorem missingOf_eq_extraOf (baseline live : RBACSnapshot) (subj : SubjectKey) :
    missingOf baseline live subj = extraOf live baseline subj := rfl

theorem extraOf_some_ne_nil {baseline live : RBACSnapshot} {subj : SubjectKey}
    {v : List Permission} (h : extraOf baseline live subj = some v) : v ≠ [] := by
  unfold extraOf at h
  by_cases h1 : (subjectPerms live subj).length > 0
  · rw [if_pos h1] at h
    by_cases h2 : ((subjectPerms live subj).filter
        (fun p => decide (p ∉ subjectPerms baseline subj))).length > 0
    · rw [if_pos h2] at h
      have hv := Option.some.inj h
      rw [← hv]
      intro hnil
      rw [hnil] at h2
      simp at h2
    · rw [if_neg h2] at h
      exact absurd h (by simp)
  · rw [if_neg h1] at h
    exact absurd h (by simp)

theorem extraOf_spec (baseline live : RBACSnapshot) (subj : SubjectKey) :
    (∀ p, p ∈ (extraOf baseline live subj).getD [] ↔
      (p ∈ subjectPerms live subj ∧ p ∉ subjectPerms baseline subj)) ∧
    (extraOf baseline live subj = none ↔
      ∀ p ∈ subjectPerms live subj, p ∈ subjectPerms baseline subj) := by
  unfold extraOf
  by_cases h1 : (subjectPerms live subj).length > 0
  · rw [if_pos h1]
    by_cases h2 : ((subjectPerms live subj).filter
        (fun p => decide (p ∉ subjectPerms baseline subj))).length > 0
    · rw [if_pos h2]
      constructor
      · intro p
        simp only [Option.getD_some, List.mem_filter, decide_eq_true_eq]
      · simp only [reduceCtorEq, false_iff, not_forall]
        have hne : (subjectPerms live subj).filter
            (fun p => decide (p ∉ subjectPerms baseline subj)) ≠ [] := by
          intro hnil
          rw [hnil] at h2
          simp at h2
        obtain ⟨p, hp⟩ := List.exists_mem_of_ne_nil _ hne
        rw [List.mem_filter, decide_eq_true_eq] at hp
        exact ⟨p, hp.1, hp.2⟩
    · rw [if_neg h2]
      have hnil : (subjectPerms live subj).filter
          (fun p => decide (p ∉ subjectPerms baseline subj)) = [] := by
        rcases List.eq_nil_or_concat ((subjectPerms live subj).filter
          (fun p => decide (p ∉ subjectPerms baseline subj))) with h | ⟨l2, b, hb⟩
        · exact h
        · exact absurd (by rw [hb]; simp) h2
      rw [List.filter_eq_nil_iff] at hnil
      constructor
      · intro p
        simp only [Option.getD_none, List.not_mem_nil, false_iff]
        intro ⟨hpl, hpb⟩
        have := hnil p hpl
        rw [decide_eq_true_eq] at this
        exact this hpb
      · simp only [true_iff]
        intro p hpl
        have := hnil p hpl
        rw [decide_eq_true_eq, not_not] at this
        exact this
  · rw [if_neg h1]
    have hnil : subjectPerms live subj = [] := by
      rcases List.eq_nil_or_concat (subjectPerms live subj) with h | ⟨l2, b, hb⟩
      · exact h
      · exact absurd (by rw [hb]; simp) h1
    constructor
    · intro p
      simp [hnil]
    · simp [hnil]

/-- C3: swapping the two snapshots swaps the Extra and Missing mappings of
`DiffRBAC`, subject-wise (here even with literal equality of the per-subject
permission lists, which implies set-wise equality). -/
theorem C3_diffRBAC_symmetry (A B : RBACSnapshot) (subj : SubjectKey) :
    driftLookup (DiffRBAC A B).Extra subj = driftLookup (DiffRBAC B A).Missing subj ∧
    driftLookup (DiffRBAC A B).Missing subj = driftLookup (DiffRBAC B A).Extra subj := by
  have hmem : subj ∈ unionSubjects A B ↔ subj ∈ unionSubjects B A := by
    unfold unionSubjects
    simp only [List.mem_dedup, List.mem_append]
    exact or_comm
  constructor
  · rw [driftLookup_diffRBAC_extra, driftLookup_diffRBAC_missing]
    by_cases h : subj ∈ unionSubjects A B
    · rw [if_pos h, if_pos (hmem.1 h)]
      rfl
    · rw [if_neg h, if_neg (fun h2 => h (hmem.2 h2))]
  · rw [driftLookup_diffRBAC_extra, driftLookup_diffRBAC_missing]
    by_cases h : subj ∈ unionSubjects A B
    · rw [if_pos h, if_pos (hmem.1 h)]
      rfl
    · rw [if_neg h, if_neg (fun h2 => h (hmem.2 h2))]

/-- C1: for every subject in the union of subject keys, the Extra mapping of
`DiffRBAC` holds exactly the live-minus-baseline set difference and the
Missing mapping exactly the baseline-minus-live difference; a subject with an
empty difference is absent from that side, and no subject is mapped to an
empty list. -/
theorem C1_diffRBAC_per_subject_differences (baseline live : RBACSnapshot)
    (subj : SubjectKey) (h : subj ∈ unionSubjects baseline live) :
    (∀ p, p ∈ (driftLookup (DiffRBAC baseline live).Extra subj).getD [] ↔
      (p ∈ subjectPerms live subj ∧ p ∉ subjectPerms baseline subj)) ∧
    (driftLookup (DiffRBAC baseline live).Extra subj = none ↔
      ∀ p ∈ subjectPerms live subj, p ∈ subjectPerms baseline subj) ∧
    (∀ p, p ∈ (driftLookup (DiffRBAC baseline live).Missing subj).getD [] ↔
      (p ∈ subjectPerms baseline subj ∧ p ∉ subjectPerms live subj)) ∧
    (driftLookup (DiffRBAC baseline live).Missing subj = none ↔
      ∀ p ∈ subjectPerms baseline subj, p ∈ subjectPerms live subj) ∧
    (∀ e ∈ (DiffRBAC baseline live).Extra, e.2 ≠ []) ∧
    (∀ e ∈ (DiffRBAC baseline live).Missing, e.2 ≠ []) := by
  have hext := driftLookup_diffRBAC_extra baseline live subj
  have hmis := driftLookup_diffRBAC_missing baseline live subj
  rw [if_pos h] at hext hmis
  refine ⟨?_, ?_, ?_, ?_, ?_, ?_⟩
  · rw [hext]
    exact (extraOf_spec baseline live subj).1
  · rw [hext]
    exact (extraOf_spec baseline live subj).2
  · rw [hmis, missingOf_eq_extraOf]
    exact (extraOf_spec live baseline subj).1
  · rw [hmis, missingOf_eq_extraOf]
    exact (extraOf_spec live baseline subj).2
  · intro e he
    unfold DiffRBAC at he
    simp only at he
    rw [List.mem_filterMap] at he
    obtain ⟨s, _, hs⟩ := he
    rw [Option.map_eq_some'] at hs
    obtain ⟨v, hv, hev⟩ := hs
    rw [← hev]
    exact extraOf_some_ne_nil hv
  · intro e he
    unfold DiffRBAC at he
    simp only at he
    rw [List.mem_filterMap] at he
    obtain ⟨s, _, hs⟩ := he
    rw [Option.map_eq_some'] at hs
    obtain ⟨v, hv, hev⟩ := hs
    rw [← hev]
    rw [missingOf_eq_extraOf] at hv
    exact extraOf_some_ne_nil hv

/-- Witness for C1 at a concrete pair of snapshots. -/
theorem C1_diffRBAC_per_subject_differences_witness :
    (⟨"User", "u", ""⟩ : SubjectKey) ∈
      unionSubjects (⟨[]⟩ : RBACSnapshot)
        ⟨[(⟨"User", "u", ""⟩, [⟨"*", "", "pods", "*", "get", ""⟩])]⟩ ∧
    ((∀ p, p ∈ (driftLookup (DiffRBAC (⟨[]⟩ : RBACSnapshot)
        ⟨[(⟨"User", "u", ""⟩, [⟨"*", "", "pods", "*", "get", ""⟩])]⟩).Extra
          ⟨"User", "u", ""⟩).getD [] ↔
      (p ∈ subjectPerms ⟨[(⟨"User", "u", ""⟩, [⟨"*", "", "pods", "*", "get", ""⟩])]⟩
          ⟨"User", "u", ""⟩ ∧
       p ∉ subjectPerms (⟨[]⟩ : RBACSnapshot) ⟨"User", "u", ""⟩)) ∧
    (driftLookup (DiffRBAC (⟨[]⟩ : RBACSnapshot)
        ⟨[(⟨"User", "u", ""⟩, [⟨"*", "", "pods", "*", "get", ""⟩])]⟩).Extra
          ⟨"User", "u", ""⟩ = none ↔
      ∀ p ∈ subjectPerms ⟨[(⟨"User", "u", ""⟩, [⟨"*", "", "pods", "*", "get", ""⟩])]⟩
          ⟨"User", "u", ""⟩,
        p ∈ subjectPerms (⟨[]⟩ : RBACSnapshot) ⟨"User", "u", ""⟩) ∧
    (∀ p, p ∈ (driftLookup (DiffRBAC (⟨[]⟩ : RBACSnapshot)
        ⟨[(⟨"User", "u", ""⟩, [⟨"*", "", "pods", "*", "get", ""⟩])]⟩).Missing
          ⟨"User", "u", ""⟩).getD [] ↔
      (p ∈ subjectPerms (⟨[]⟩ : RBACSnapshot) ⟨"User", "u", ""⟩ ∧
       p ∉ subjectPerms ⟨[(⟨"User", "u", ""⟩, [⟨"*", "", "pods", "*", "get", ""⟩])]⟩
          ⟨"User", "u", ""⟩)) ∧
    (driftLookup (DiffRBAC (⟨[]⟩ : RBACSnapshot)
        ⟨[(⟨"User", "u", ""⟩, [⟨"*", "", "pods", "*", "get", ""⟩])]⟩).Missing
          ⟨"User", "u", ""⟩ = none ↔
      ∀ p ∈ subjectPerms (⟨[]⟩ : RBACSnapshot) ⟨"User", "u", ""⟩,
        p ∈ subjectPerms ⟨[(⟨"User", "u", ""⟩, [⟨"*", "", "pods", "*", "get", ""⟩])]⟩
          ⟨"User", "u", ""⟩) ∧
    (∀ e ∈ (DiffRBAC (⟨[]⟩ : RBACSnapshot)
        ⟨[(⟨"User", "u", ""⟩, [⟨"*", "", "pods", "*", "get", ""⟩])]⟩).Extra, e.2 ≠ []) ∧
    (∀ e ∈ (DiffRBAC (⟨[]⟩ : RBACSnapshot)
        ⟨[(⟨"User", "u", ""⟩, [⟨"*", "", "pods", "*", "get", ""⟩])]⟩).Missing, e.2 ≠ [])) :=
  ⟨by decide, C1_diffRBAC_per_subject_differences ⟨[]⟩
    ⟨[(⟨"User", "u", ""⟩, [⟨"*", "", "pods", "*", "get", ""⟩])]⟩
    ⟨"User", "u", ""⟩ (by decide)⟩

/-! ### AddPermissions: set semantics and idempotence -/

theorem mem_insertPerm {l : List Permission} {p x : Permission} :
    x ∈ insertPerm l p ↔ x ∈ l ∨ x = p := by
  unfold insertPerm
  by_cases hp : p ∈ l
  · rw [if_pos hp]
    constructor
    · exact Or.inl
    · intro h
      rcases h with h | h
      · exact h
      · exact h ▸ hp
  · rw [if_neg hp]
    simp [List.mem_append]

theorem mem_foldl_insertPerm {x : Permission} :
    ∀ (ps init : List Permission), x ∈ ps.foldl insertPerm init ↔ x ∈ init ∨ x ∈ ps := by
  intro ps
  induction ps with
  | nil => intro init; simp
  | cons p rest ih =>
    intro init
    rw [List.foldl_cons, ih, mem_insertPerm]
    constructor
    · intro h
      rcases h with (h | h) | h
      · exact Or.inl h
      · exact Or.inr (h ▸ List.mem_cons_self p rest)
      · exact Or.inr (List.mem_cons_of_mem p h)
    · intro h
      rcases h with h | h
      · exact Or.inl (Or.inl h)
      · rcases List.mem_cons.1 h with h2 | h2
        · exact Or.inl (Or.inr h2)
        · exact Or.inr h2

theorem foldl_insertPerm_of_subset :
    ∀ {ps init : List Permission}, (∀ p ∈ ps, p ∈ init) → ps.foldl insertPerm init = init := by
  intro ps
  induction ps with
  | nil => intro init _; rfl
  | cons p rest ih =>
    intro init h
    rw [List.foldl_cons]
    have hp : insertPerm init p = init := by
      unfold insertPerm
      rw [if_pos (h p (List.mem_cons_self p rest))]
    rw [hp]
    exact ih (fun q hq => h q (List.mem_cons_of_mem p hq))

theorem insertPerm_nodup {l : List Permission} (h : l.Nodup) (p : Permission) :
    (insertPerm l p).Nodup := by
  unfold insertPerm
  by_cases hp : p ∈ l
  · rw [if_pos hp]; exact h
  · rw [if_neg hp]
    rw [List.nodup_append]
    refine ⟨h, List.nodup_singleton p, ?_⟩
    intro a ha hb
    rw [List.mem_singleton] at hb
    exact hp (hb ▸ ha)

theorem foldl_insertPerm_nodup :
    ∀ (ps : List Permission) {init : List Permission}, init.Nodup →
      (ps.foldl insertPerm init).Nodup := by
  intro ps
  induction ps with
  | nil => intro init h; exact h
  | cons p rest ih =>
    intro init h
    rw [List.foldl_cons]
    exact ih (insertPerm_nodup h p)

theorem subjectPerms_setSubject (l : List (SubjectKey × List Permission))
    (k : SubjectKey) (v : List Permission) :
    subjectPerms ⟨setSubject l k v⟩ k = v := by
  unfold subjectPerms setSubject assocFind
  by_cases hany : l.any (fun kv => decide (kv.1 = k)) = true
  · rw [if_pos hany]
    induction l with
    | nil => simp at hany
    | cons kv t ih =>
      by_cases hk : kv.1 = k
      · rw [List.map_cons, if_pos hk,
          List.find?_cons_of_pos _ (by simp)]
      · rw [List.map_cons, if_neg hk,
          List.find?_cons_of_neg _ (by simpa using hk)]
        have hany2 : t.any (fun kv => decide (kv.1 = k)) = true := by
          rw [List.any_cons] at hany
          simpa [hk] using hany
        exact ih hany2
  · rw [if_neg hany]
    rw [Bool.not_eq_true, List.any_eq_false] at hany
    induction l with
    | nil => simp [List.find?_cons_of_pos]
    | cons kv t ih =>
      have hk : ¬ kv.1 = k := by
        have := hany kv (List.mem_cons_self kv t)
        simpa using this
      rw [List.cons_append, List.find?_cons_of_neg _ (by simpa using hk)]
      exact ih (fun x hx => hany x (List.mem_cons_of_mem kv hx))

theorem setSubject_mem (l : List (SubjectKey × List Permission))
    (k : SubjectKey) (v : List Permission) :
    ∀ e ∈ setSubject l k v, e ∈ l ∨ e = (k, v) := by
  intro e he
  unfold setSubject at he
  by_cases hany : l.any (fun kv => decide (kv.1 = k)) = true
  · rw [if_pos hany] at he
    rw [List.mem_map] at he
    obtain ⟨x, hx, hxe⟩ := he
    by_cases hk : x.1 = k
    · rw [if_pos hk] at hxe
      exact Or.inr hxe.symm
    · rw [if_neg hk] at hxe
      exact Or.inl (hxe ▸ hx)
  · rw [if_neg hany] at he
    rw [List.mem_append] at he
    rcases he with he | he
    · exact Or.inl he
    · rw [List.mem_singleton] at he
      exact Or.inr he

theorem setSubject_idem (l : List (SubjectKey × List Permission))
    (k : SubjectKey) (v : List Permission) :
    setSubject (setSubject l k v) k v = setSubject l k v := by
  have hfix : ∀ e ∈ setSubject l k v,
      (if e.1 = k then ((k, v) : SubjectKey × List Permission) else e) = e := by
    intro e he
    rcases setSubject_mem l k v e he with hmem | heq
    · by_cases hk : e.1 = k
      · rw [if_pos hk]
        unfold setSubject at he
        by_cases hany : l.any (fun kv => decide (kv.1 = k)) = true
        · rw [if_pos hany] at he
          rw [List.mem_map] at he
          obtain ⟨x, _, hxe⟩ := he
          by_cases hxk : x.1 = k
          · rw [if_pos hxk] at hxe
            exact hxe
          · rw [if_neg hxk] at hxe
            exact absurd (hxe ▸ hk) hxk
        · rw [Bool.not_eq_true, List.any_eq_false] at hany
          have := hany e hmem
          simp only [decide_eq_true_eq] at this
          exact absurd hk (by simpa using this)
      · rw [if_neg hk]
    · rw [heq]
      simp
  have hany2 : (setSubject l k v).any (fun kv => decide (kv.1 = k)) = true := by
    unfold setSubject
    by_cases hany : l.any (fun kv => decide (kv.1 = k)) = true
    · rw [if_pos hany]
      rw [List.any_eq_true] at hany ⊢
      obtain ⟨x, hx, hxk⟩ := hany
      simp only [decide_eq_true_eq] at hxk
      refine ⟨(k, v), ?_, by simp⟩
      rw [List.mem_map]
      exact ⟨x, hx, by rw [if_pos hxk]⟩
    · rw [if_neg hany]
      rw [List.any_eq_true]
      refine ⟨(k, v), ?_, by simp⟩
      rw [List.mem_append, List.mem_singleton]
      exact Or.inr rfl
  generalize hL : setSubject l k v = L at hfix hany2 ⊢
  unfold setSubject
  rw [if_pos hany2]
  calc L.map (fun kv => if kv.1 = k then (k, v) else kv)
      = L.map id := List.map_congr_left hfix
    _ = L := List.map_id L

/-- C8: `AddPermissions` is an idempotent set union: adding the same
permission list twice produces the same snapshot as adding it once, and
permission sets stay free of duplicate entries. -/
theorem C8_addPermissions_idempotent_set_union (s : RBACSnapshot) (subj : SubjectKey)
    (perms : List Permission) :
    AddPermissions (AddPermissions s subj perms) subj perms = AddPermissions s subj perms ∧
    ((∀ e ∈ s.Subjects, e.2.Nodup) →
      ∀ e ∈ (AddPermissions s subj perms).Subjects, e.2.Nodup) := by
  constructor
  · by_cases hlen : perms.length = 0
    · unfold AddPermissions
      rw [if_pos hlen, if_pos hlen]
    · have hstep : AddPermissions s subj perms =
          ⟨setSubject s.Subjects subj (perms.foldl insertPerm (subjectPerms s subj))⟩ := by
        unfold AddPermissions
        rw [if_neg hlen]
      rw [hstep]
      unfold AddPermissions
      rw [if_neg hlen]
      have hperms : subjectPerms
          (⟨setSubject s.Subjects subj (perms.foldl insertPerm (subjectPerms s subj))⟩ :
            RBACSnapshot) subj = perms.foldl insertPerm (subjectPerms s subj) :=
        subjectPerms_setSubject _ _ _
      rw [hperms]
      rw [foldl_insertPerm_of_subset
        (fun p hp => (mem_foldl_insertPerm perms (subjectPerms s subj)).2 (Or.inr hp))]
      rw [setSubject_idem]
  · intro hnd e he
    by_cases hlen : perms.length = 0
    · unfold AddPermissions at he
      rw [if_pos hlen] at he
      exact hnd e he
    · unfold AddPermissions at he
      rw [if_neg hlen] at he
      rcases setSubject_mem _ _ _ e he with hmem | heq
      · exact hnd e hmem
      · rw [heq]
        have hbase : (subjectPerms s subj).Nodup := by
          unfold subjectPerms
          cases hres : assocFind Prod.fst s.Subjects subj with
          | none => simp
          | some kv =>
            simp only
            exact hnd kv (assocFind_some hres).1
        exact foldl_insertPerm_nodup perms hbase

/-- Witness for C8 at a concrete snapshot, subject and permission list. -/
theorem C8_addPermissions_idempotent_set_union_witness :
    AddPermissions (AddPermissions ⟨[]⟩ ⟨"User", "u", ""⟩
        [⟨"*", "", "pods", "*", "get", ""⟩])
      ⟨"User", "u", ""⟩ [⟨"*", "", "pods", "*", "get", ""⟩] =
      AddPermissions ⟨[]⟩ ⟨"User", "u", ""⟩ [⟨"*", "", "pods", "*", "get", ""⟩] ∧
    (∀ e ∈ (AddPermissions ⟨[]⟩ ⟨"User", "u", ""⟩
        [⟨"*", "", "pods", "*", "get", ""⟩]).Subjects, e.2.Nodup) :=
  ⟨(C8_addPermissions_idempotent_set_union ⟨[]⟩ ⟨"User", "u", ""⟩
      [⟨"*", "", "pods", "*", "get", ""⟩]).1,
   (C8_addPermissions_idempotent_set_union ⟨[]⟩ ⟨"User", "u", ""⟩
      [⟨"*", "", "pods", "*", "get", ""⟩]).2 (by decide)⟩

/-! ### Snapshot builder invariant: no empty permission sets -/

theorem foldl_preserves {α β : Type} (P : α → Prop) (step : α → β → α)
    (hstep : ∀ a b, P a → P (step a b)) :
    ∀ (l : List β) (init : α), P init → P (l.foldl step init) := by
  intro l
  induction l with
  | nil => intro init h; exact h
  | cons b rest ih =>
    intro init h
    rw [List.foldl_cons]
    exact ih (step init b) (hstep init b h)

theorem addPermissions_preserves_ne_nil {s : RBACSnapshot} {subj : SubjectKey}
    {perms : List Permission} (h : ∀ e ∈ s.Subjects, e.2 ≠ []) :
    ∀ e ∈ (AddPermissions s subj perms).Subjects, e.2 ≠ [] := by
  intro e he
  by_cases hlen : perms.length = 0
  · unfold AddPermissions at he
    rw [if_pos hlen] at he
    exact h e he
  · unfold AddPermissions at he
    rw [if_neg hlen] at he
    rcases setSubject_mem _ _ _ e he with hmem | heq
    · exact h e hmem
    · rw [heq]
      have hne : perms ≠ [] := fun hp => hlen (by rw [hp]; rfl)
      obtain ⟨p, hp⟩ := List.exists_mem_of_ne_nil perms hne
      have hpmem : p ∈ perms.foldl insertPerm (subjectPerms s subj) :=
        (mem_foldl_insertPerm perms (subjectPerms s subj)).2 (Or.inr hp)
      intro hnil
      have hnil2 : perms.foldl insertPerm (subjectPerms s subj) = [] := hnil
      rw [hnil2] at hpmem
      exact absurd hpmem (List.not_mem_nil p)

theorem applyRoleBinding_preserves_ne_nil {roles : List Role} {crs : List ClusterRole}
    {snap : RBACSnapshot} {rb : RoleBinding} (h : ∀ e ∈ snap.Subjects, e.2 ≠ []) :
    ∀ e ∈ (applyRoleBinding roles crs snap rb).Subjects, e.2 ≠ [] := by
  unfold applyRoleBinding
  by_cases h1 : (resolveRoleBindingRules roles crs rb).length = 0
  · rw [if_pos h1]; exact h
  · rw [if_neg h1]
    by_cases h2 : (ExpandPolicyRulesToPermissions (resolveRoleBindingRules roles crs rb)
        rb.Namespace false).length = 0
    · rw [if_pos h2]; exact h
    · rw [if_neg h2]
      exact foldl_preserves (fun s : RBACSnapshot => ∀ e ∈ s.Subjects, e.2 ≠ []) _
        (fun s subj hs => addPermissions_preserves_ne_nil hs) rb.Subjects snap h

theorem applyClusterRoleBinding_preserves_ne_nil {crs : List ClusterRole}
    {snap : RBACSnapshot} {crb : ClusterRoleBinding}
    (h : ∀ e ∈ snap.Subjects, e.2 ≠ []) :
    ∀ e ∈ (applyClusterRoleBinding crs snap crb).Subjects, e.2 ≠ [] := by
  unfold applyClusterRoleBinding
  by_cases h1 : (clusterRolesByName crs crb.RoleRef.Name).length = 0
  · rw [if_pos h1]; exact h
  · rw [if_neg h1]
    by_cases h2 : (ExpandPolicyRulesToPermissions (clusterRolesByName crs crb.RoleRef.Name)
        "" true).length = 0
    · rw [if_pos h2]; exact h
    · rw [if_neg h2]
      exact foldl_preserves (fun s : RBACSnapshot => ∀ e ∈ s.Subjects, e.2 ≠ []) _
        (fun s subj hs => addPermissions_preserves_ne_nil hs) crb.Subjects snap h

/-- C10: in every snapshot built through `AddPermissions`, subjects map only
to non-empty permission sets: adding the empty list is a no-op, the builder
skips bindings with empty resolved rules or empty expanded permissions, and
every subject entry of `buildRBACSnapshot` holds a non-empty set. -/
theorem C10_builder_no_empty_permission_sets :
    (∀ (s : RBACSnapshot) (subj : SubjectKey), AddPermissions s subj [] = s) ∧
    (∀ (roles : List Role) (crs : List ClusterRole) (rbs : List RoleBinding)
        (crbs : List ClusterRoleBinding),
      ∀ e ∈ (buildRBACSnapshot roles crs rbs crbs).Subjects, e.2 ≠ []) ∧
    (∀ (roles : List Role) (crs : List ClusterRole) (snap : RBACSnapshot)
        (rb : RoleBinding), resolveRoleBindingRules roles crs rb = [] →
      applyRoleBinding roles crs snap rb = snap) ∧
    (∀ (roles : List Role) (crs : List ClusterRole) (snap : RBACSnapshot)
        (rb : RoleBinding),
      ExpandPolicyRulesToPermissions (resolveRoleBindingRules roles crs rb)
          rb.Namespace false = [] →
      applyRoleBinding roles crs snap rb = snap) ∧
    (∀ (crs : List ClusterRole) (snap : RBACSnapshot) (crb : ClusterRoleBinding),
      clusterRolesByName crs crb.RoleRef.Name = [] →
      applyClusterRoleBinding crs snap crb = snap) ∧
    (∀ (crs : List ClusterRole) (snap : RBACSnapshot) (crb : ClusterRoleBinding),
      ExpandPolicyRulesToPermissions (clusterRolesByName crs crb.RoleRef.Name) "" true = [] →
      applyClusterRoleBinding crs snap crb = snap) := by
  refine ⟨?_, ?_, ?_, ?_, ?_, ?_⟩
  · intro s subj
    rfl
  · intro roles crs rbs crbs
    unfold buildRBACSnapshot
    refine foldl_preserves (fun s : RBACSnapshot => ∀ e ∈ s.Subjects, e.2 ≠ []) _
      (fun s crb hs => applyClusterRoleBinding_preserves_ne_nil hs) crbs _ ?_
    refine foldl_preserves (fun s : RBACSnapshot => ∀ e ∈ s.Subjects, e.2 ≠ []) _
      (fun s rb hs => applyRoleBinding_preserves_ne_nil hs) rbs _ ?_
    intro e he
    exact absurd he (List.not_mem_nil e)
  · intro roles crs snap rb hrules
    unfold applyRoleBinding
    rw [if_pos (by rw [hrules]; rfl)]
  · intro roles crs snap rb hperms
    unfold applyRoleBinding
    by_cases h1 : (resolveRoleBindingRules roles crs rb).length = 0
    · rw [if_pos h1]
    · rw [if_neg h1, if_pos (by rw [hperms]; rfl)]
  · intro crs snap crb hrules
    unfold applyClusterRoleBinding
    rw [if_pos (by rw [hrules]; rfl)]
  · intro crs snap crb hperms
    unfold applyClusterRoleBinding
    by_cases h1 : (clusterRolesByName crs crb.RoleRef.Name).length = 0
    · rw [if_pos h1]
    · rw [if_neg h1, if_pos (by rw [hperms]; rfl)]

/-- Witness for C10 on a concrete builder input: one RoleBinding with rules
and one with an unresolvable role reference. -/
theorem C10_builder_no_empty_permission_sets_witness :
    (∀ e ∈ (buildRBACSnapshot [⟨"ns1", "r1", [⟨["get"], [], ["pods"], [], []⟩]⟩] []
        [⟨"ns1", ⟨"Role", "r1"⟩, [⟨"User", "u", ""⟩]⟩] []).Subjects, e.2 ≠ []) ∧
    applyRoleBinding [] [] ⟨[]⟩ ⟨"ns1", ⟨"Role", "ghost"⟩, [⟨"User", "u", ""⟩]⟩ = ⟨[]⟩ :=
  ⟨C10_builder_no_empty_permission_sets.2.1
      [⟨"ns1", "r1", [⟨["get"], [], ["pods"], [], []⟩]⟩] []
      [⟨"ns1", ⟨"Role", "r1"⟩, [⟨"User", "u", ""⟩]⟩] [],
   C10_builder_no_empty_permission_sets.2.2.1 [] [] ⟨[]⟩
      ⟨"ns1", ⟨"Role", "ghost"⟩, [⟨"User", "u", ""⟩]⟩ (by decide)⟩

/-! ### Rule expander: cartesian-product cardinality and membership -/

theorem length_flatMap_const {α β : Type} (n : Nat) {f : α → List β}
    (h : ∀ a, (f a).length = n) : ∀ l : List α, (l.flatMap f).length = l.length * n := by
  intro l
  induction l with
  | nil => simp
  | cons a t ih =>
    rw [List.flatMap_cons, List.length_append, h a, ih, List.length_cons]
    ring

/-- C2: for a rule without non-resource URLs the expander emits exactly the
cartesian product verb × apiGroup × resource × resourceName after defaulting
empty dimension lists, scoped `*` when cluster-wide and to the binding
namespace otherwise; for a rule with non-resource URLs it emits one
permission per verb × URL with only verb and URL set; a rule with no verbs
emits nothing. -/
theorem C2_expander_cartesian_product (rule : PolicyRule) (ns : String) (cs : Bool) :
    ExpandPolicyRulesToPermissions [rule] ns cs = expandPolicyRule rule ns cs ∧
    (rule.NonResourceURLs = [] →
      (expandPolicyRule rule ns cs).length =
        rule.Verbs.length *
        (if rule.APIGroups.length = 0 then [""] else rule.APIGroups).length *
        (if rule.Resources.length = 0 then [""] else rule.Resources).length *
        (if rule.ResourceNames.length = 0 then ["*"] else rule.ResourceNames).length ∧
      (∀ p, p ∈ expandPolicyRule rule ns cs ↔
        ∃ v ∈ rule.Verbs,
        ∃ g ∈ (if rule.APIGroups.length = 0 then [""] else rule.APIGroups),
        ∃ r ∈ (if rule.Resources.length = 0 then [""] else rule.Resources),
        ∃ rn ∈ (if rule.ResourceNames.length = 0 then ["*"] else rule.ResourceNames),
          p = ⟨if cs then "*" else ns, g, r, rn, v, ""⟩)) ∧
    (rule.NonResourceURLs ≠ [] →
      (expandPolicyRule rule ns cs).length =
        rule.Verbs.length * rule.NonResourceURLs.length ∧
      (∀ p, p ∈ expandPolicyRule rule ns cs ↔
        ∃ v ∈ rule.Verbs, ∃ u ∈ rule.NonResourceURLs, p = ⟨"*", "", "", "", v, u⟩)) ∧
    (rule.Verbs = [] → expandPolicyRule rule ns cs = []) := by
  refine ⟨by simp [ExpandPolicyRulesToPermissions], ?_, ?_, ?_⟩
  · intro hurl
    have hcond : ¬ rule.NonResourceURLs.length > 0 := by
      rw [hurl]
      simp
    unfold expandPolicyRule
    rw [if_neg hcond]
    constructor
    · rw [length_flatMap_const ((if rule.APIGroups.length = 0 then [""]
          else rule.APIGroups).length *
          ((if rule.Resources.length = 0 then [""] else rule.Resources).length *
           (if rule.ResourceNames.length = 0 then ["*"] else rule.ResourceNames).length))]
      · ring
      · intro v
        rw [length_flatMap_const ((if rule.Resources.length = 0 then [""]
            else rule.Resources).length *
            (if rule.ResourceNames.length = 0 then ["*"] else rule.ResourceNames).length)]
        intro g
        rw [length_flatMap_const ((if rule.ResourceNames.length = 0 then ["*"]
            else rule.ResourceNames).length)]
        intro r
        exact List.length_map _ _
    · intro p
      simp only [List.mem_flatMap, List.mem_map]
      constructor
      · rintro ⟨v, hv, g, hg, r, hr, rn, hrn, hp⟩
        exact ⟨v, hv, g, hg, r, hr, rn, hrn, hp.symm⟩
      · rintro ⟨v, hv, g, hg, r, hr, rn, hrn, hp⟩
        exact ⟨v, hv, g, hg, r, hr, rn, hrn, hp.symm⟩
  · intro hurl
    have hcond : rule.NonResourceURLs.length > 0 := by
      cases h : rule.NonResourceURLs with
      | nil => exact absurd h hurl
      | cons a t => simp [h]
    unfold expandPolicyRule
    rw [if_pos hcond]
    constructor
    · rw [length_flatMap_const (rule.NonResourceURLs.length)]
      intro v
      exact List.length_map _ _
    · intro p
      simp only [List.mem_flatMap, List.mem_map]
      constructor
      · rintro ⟨v, hv, u, hu, hp⟩
        exact ⟨v, hv, u, hu, hp.symm⟩
      · rintro ⟨v, hv, u, hu, hp⟩
        exact ⟨v, hv, u, hu, hp.symm⟩
  · intro hverbs
    unfold expandPolicyRule
    rw [hverbs]
    by_cases hcond : rule.NonResourceURLs.length > 0
    · rw [if_pos hcond]
      rfl
    · rw [if_neg hcond]
      rfl

/-- Witness for C2: the spec's worked example, a rule with 2 verbs, 1 API
group, 2 resources and no resource names expands to exactly 4 permissions. -/
theorem C2_expander_cartesian_product_witness :
    (⟨["get", "list"], ["apps"], ["deployments", "pods"], [], []⟩ :
      PolicyRule).NonResourceURLs = [] ∧
    (expandPolicyRule ⟨["get", "list"], ["apps"], ["deployments", "pods"], [], []⟩
      "ns1" false).length = 4 := by
  have h := (C2_expander_cartesian_product
    ⟨["get", "list"], ["apps"], ["deployments", "pods"], [], []⟩ "ns1" false).2.1 rfl
  exact ⟨rfl, h.1.trans (by decide)⟩

/-! ### NetworkPolicy digest: failure surface and spec-only hashing -/

theorem buildNetPolItems_error {marshal : NetPolSpec → Option (List Nat)}
    {sha256Hex : List Nat → String} {np : NetworkPolicy} :
    ∀ {netpols : List NetworkPolicy}, np ∈ netpols → marshal np.Spec = none →
      ∃ e, buildNetPolItems marshal sha256Hex netpols = Except.error e := by
  intro netpols
  induction netpols with
  | nil => intro hmem; exact absurd hmem (List.not_mem_nil np)
  | cons np' rest ih =>
    intro hmem hnone
    cases hd : NewNetPolDigest marshal sha256Hex np' with
    | error e =>
      refine ⟨e, ?_⟩
      unfold buildNetPolItems
      rw [hd]
    | ok d =>
      rcases List.mem_cons.1 hmem with heq | hrest
      · subst heq
        unfold NewNetPolDigest at hd
        rw [hnone] at hd
        exact absurd hd (by simp)
      · obtain ⟨e, he⟩ := ih hrest hnone
        refine ⟨e, ?_⟩
        unfold buildNetPolItems
        rw [hd, he]

/-- C7: `NewNetPolDigest` fails exactly when the spec cannot be serialized;
on success the hash is a function of the serialized spec alone, so identical
specs give identical hashes regardless of object metadata; and a digest
failure aborts the snapshot build with that error rather than being
swallowed. -/
theorem C7_netpol_digest_error_iff_marshal (marshal : NetPolSpec → Option (List Nat))
    (sha256Hex : List Nat → String) (np np₁ np₂ : NetworkPolicy)
    (netpols : List NetworkPolicy) :
    ((∃ e, NewNetPolDigest marshal sha256Hex np = Except.error e) ↔
      marshal np.Spec = none) ∧
    (∀ d, NewNetPolDigest marshal sha256Hex np = Except.ok d →
      ∃ bytes, marshal np.Spec = some bytes ∧ d.SpecHash = sha256Hex bytes) ∧
    (np₁.Spec = np₂.Spec → ∀ d₁ d₂, NewNetPolDigest marshal sha256Hex np₁ = Except.ok d₁ →
      NewNetPolDigest marshal sha256Hex np₂ = Except.ok d₂ → d₁.SpecHash = d₂.SpecHash) ∧
    (np ∈ netpols → marshal np.Spec = none →
      ∃ e, buildNetPolSnapshot marshal sha256Hex netpols = Except.error e) := by
  refine ⟨?_, ?_, ?_, ?_⟩
  · constructor
    · intro ⟨e, he⟩
      unfold NewNetPolDigest at he
      cases hm : marshal np.Spec with
      | none => rfl
      | some bytes =>
        rw [hm] at he
        exact absurd he (by simp)
    · intro hm
      unfold NewNetPolDigest
      rw [hm]
      exact ⟨"marshal NetworkPolicy spec", rfl⟩
  · intro d hd
    unfold NewNetPolDigest at hd
    cases hm : marshal np.Spec with
    | none =>
      rw [hm] at hd
      exact absurd hd (by simp)
    | some bytes =>
      rw [hm] at hd
      refine ⟨bytes, rfl, ?_⟩
      have := Except.ok.inj hd
      rw [← this]
  · intro hspec d₁ d₂ hd₁ hd₂
    unfold NewNetPolDigest at hd₁ hd₂
    rw [hspec] at hd₁
    cases hm : marshal np₂.Spec with
    | none =>
      rw [hm] at hd₁
      exact absurd hd₁ (by simp)
    | some bytes =>
      rw [hm] at hd₁ hd₂
      have h1 := Except.ok.inj hd₁
      have h2 := Except.ok.inj hd₂
      rw [← h1, ← h2]
  · intro hmem hnone
    obtain ⟨e, he⟩ := buildNetPolItems_error hmem hnone
    refine ⟨e, ?_⟩
    unfold buildNetPolSnapshot
    rw [he]
    rfl

/-- Witness for C7 with a serializer that rejects the given spec. -/
theorem C7_netpol_digest_error_iff_marshal_witness :
    (∃ e, NewNetPolDigest (fun _ => none) (fun _ => "h")
      ⟨"ns1", "p1", "1", [], ⟨[], [], []⟩⟩ = Except.error e) ∧
    (∃ e, buildNetPolSnapshot (fun _ => none) (fun _ => "h")
      [⟨"ns1", "p1", "1", [], ⟨[], [], []⟩⟩] = Except.error e) :=
  ⟨(C7_netpol_digest_error_iff_marshal (fun _ => none) (fun _ => "h")
      ⟨"ns1", "p1", "1", [], ⟨[], [], []⟩⟩ ⟨"ns1", "p1", "1", [], ⟨[], [], []⟩⟩
      ⟨"ns1", "p1", "1", [], ⟨[], [], []⟩⟩ [⟨"ns1", "p1", "1", [], ⟨[], [], []⟩⟩]).1.2 rfl,
   (C7_netpol_digest_error_iff_marshal (fun _ => none) (fun _ => "h")
      ⟨"ns1", "p1", "1", [], ⟨[], [], []⟩⟩ ⟨"ns1", "p1", "1", [], ⟨[], [], []⟩⟩
      ⟨"ns1", "p1", "1", [], ⟨[], [], []⟩⟩ [⟨"ns1", "p1", "1", [], ⟨[], [], []⟩⟩]).2.2.2
      (List.mem_singleton.2 rfl) rfl⟩

/-! ### PSA rank and classification -/

/-- C5 counterexample: with the flat differ of `internal/diff/psa_diff.go`, a
namespace whose baseline enforce level is `restricted` and whose live level
is absent is classified `different`, not `weaker`: `classifyPSADrift`
returns `different` whenever either rank is 0. -/
theorem C5_counterexample_flat_classifier_different :
    DiffPSAFlat [⟨"ns1", "restricted", "", ""⟩] [⟨"ns1", "", "", ""⟩] =
      ⟨[⟨"ns1", "restricted", "", "different"⟩]⟩ ∧
    classifyPSADrift "restricted" "" = "different" ∧
    ("different" : String) ≠ "weaker" := by
  refine ⟨by decide, by decide, by decide⟩

/-- C5 (amended): the rank function is total with privileged 1, baseline 2,
restricted 3 and 0 for anything else, and in the bucketed differ's
`classifyPSADirection` a known baseline level against a rank-0 live level is
classified weaker (the flat `classifyPSADrift` instead reports
`different`). -/
theorem C5_psaRank_total_unknown_weakest (base live : PSALevel) :
    psaRank PSALevelPrivileged = 1 ∧ psaRank PSALevelBaseline = 2 ∧
    psaRank PSALevelRestricted = 3 ∧
    (∀ s : PSALevel, s ≠ PSALevelPrivileged → s ≠ PSALevelBaseline →
      s ≠ PSALevelRestricted → psaRank s = 0) ∧
    ((base = PSALevelPrivileged ∨ base = PSALevelBaseline ∨ base = PSALevelRestricted) →
      psaRank live = 0 → classifyPSADirection base live = ("extra", "weaker")) := by
  refine ⟨by decide, by decide, by decide, ?_, ?_⟩
  · intro s h1 h2 h3
    unfold psaRank
    rw [if_neg h1, if_neg h2, if_neg h3]
  · intro hbase hlive
    have hb : 0 < psaRank base := by
      rcases hbase with h | h | h <;> rw [h] <;> decide
    unfold classifyPSADirection
    show (if psaRank live < psaRank base then ("extra", "weaker")
        else if psaRank live > psaRank base then ("missing", "stronger")
        else ("extra", "different")) = ("extra", "weaker")
    rw [hlive, if_pos hb]

/-- Witness for C5 at `restricted` against an absent live level. -/
theorem C5_psaRank_total_unknown_weakest_witness :
    classifyPSADirection "restricted" "" = ("extra", "weaker") :=
  (C5_psaRank_total_unknown_weakest "restricted" "").2.2.2.2
    (Or.inr (Or.inr rfl)) rfl

/-! ### Bucketed PSA differ: per-namespace evaluation lemmas -/

theorem classifyPSADirection_eq (b l : PSALevel) :
    classifyPSADirection b l =
      if psaRank l < psaRank b then ("extra", "weaker")
      else if psaRank l > psaRank b then ("missing", "stronger")
      else ("extra", "different") := rfl

theorem psaExtraEntry_some_arm {live : List NamespacePSA} {b l : NamespacePSA}
    (hlk : lookupNS live b.Namespace = some l) :
    psaExtraEntry live b =
      (if b.Enforce ≠ l.Enforce then
        if (classifyPSADirection b.Enforce l.Enforce).1 = "missing" then none
        else some ⟨b.Namespace, b.Enforce, l.Enforce,
          (classifyPSADirection b.Enforce l.Enforce).2⟩
      else none) := by
  unfold psaExtraEntry
  rw [hlk]

theorem psaMissingEntry_some_arm {live : List NamespacePSA} {b l : NamespacePSA}
    (hlk : lookupNS live b.Namespace = some l) :
    psaMissingEntry live b =
      (if b.Enforce ≠ l.Enforce then
        if (classifyPSADirection b.Enforce l.Enforce).1 = "missing" then
          some ⟨b.Namespace, b.Enforce, l.Enforce,
            (classifyPSADirection b.Enforce l.Enforce).2⟩
        else none
      else none) := by
  unfold psaMissingEntry
  rw [hlk]

theorem psaExtraEntry_weaker {live : List NamespacePSA} {b l : NamespacePSA}
    (hlk : lookupNS live b.Namespace = some l) (hne : b.Enforce ≠ l.Enforce)
    (h : psaRank l.Enforce < psaRank b.Enforce) :
    psaExtraEntry live b = some ⟨b.Namespace, b.Enforce, l.Enforce, "weaker"⟩ := by
  rw [psaExtraEntry_some_arm hlk, if_pos hne, classifyPSADirection_eq, if_pos h,
    if_neg (by decide)]

theorem psaMissingEntry_weaker {live : List NamespacePSA} {b l : NamespacePSA}
    (hlk : lookupNS live b.Namespace = some l) (hne : b.Enforce ≠ l.Enforce)
    (h : psaRank l.Enforce < psaRank b.Enforce) :
    psaMissingEntry live b = none := by
  rw [psaMissingEntry_some_arm hlk, if_pos hne, classifyPSADirection_eq, if_pos h,
    if_neg (by decide)]

theorem psaExtraEntry_stronger {live : List NamespacePSA} {b l : NamespacePSA}
    (hlk : lookupNS live b.Namespace = some l) (hne : b.Enforce ≠ l.Enforce)
    (h : psaRank b.Enforce < psaRank l.Enforce) :
    psaExtraEntry live b = none := by
  rw [psaExtraEntry_some_arm hlk, if_pos hne, classifyPSADirection_eq,
    if_neg (Nat.lt_asymm h), if_pos h, if_pos (by decide)]

theorem psaMissingEntry_stronger {live : List NamespacePSA} {b l : NamespacePSA}
    (hlk : lookupNS live b.Namespace = some l) (hne : b.Enforce ≠ l.Enforce)
    (h : psaRank b.Enforce < psaRank l.Enforce) :
    psaMissingEntry live b = some ⟨b.Namespace, b.Enforce, l.Enforce, "stronger"⟩ := by
  rw [psaMissingEntry_some_arm hlk, if_pos hne, classifyPSADirection_eq,
    if_neg (Nat.lt_asymm h), if_pos h, if_pos (by decide)]

theorem psaExtraEntry_different {live : List NamespacePSA} {b l : NamespacePSA}
    (hlk : lookupNS live b.Namespace = some l) (hne : b.Enforce ≠ l.Enforce)
    (h : psaRank l.Enforce = psaRank b.Enforce) :
    psaExtraEntry live b = some ⟨b.Namespace, b.Enforce, l.Enforce, "different"⟩ := by
  have hnl : ¬ psaRank l.Enforce < psaRank b.Enforce := by
    rw [h]; exact Nat.lt_irrefl _
  have hng : ¬ psaRank l.Enforce > psaRank b.Enforce := by
    rw [h]; exact Nat.lt_irrefl _
  rw [psaExtraEntry_some_arm hlk, if_pos hne, classifyPSADirection_eq,
    if_neg hnl, if_neg hng, if_neg (by decide)]

theorem psaMissingEntry_different {live : List NamespacePSA} {b l : NamespacePSA}
    (hlk : lookupNS live b.Namespace = some l) (hne : b.Enforce ≠ l.Enforce)
    (h : psaRank l.Enforce = psaRank b.Enforce) :
    psaMissingEntry live b = none := by
  have hnl : ¬ psaRank l.Enforce < psaRank b.Enforce := by
    rw [h]; exact Nat.lt_irrefl _
  have hng : ¬ psaRank l.Enforce > psaRank b.Enforce := by
    rw [h]; exact Nat.lt_irrefl _
  rw [psaMissingEntry_some_arm hlk, if_pos hne, classifyPSADirection_eq,
    if_neg hnl, if_neg hng, if_neg (by decide)]

theorem psaExtraEntry_equal {live : List NamespacePSA} {b l : NamespacePSA}
    (hlk : lookupNS live b.Namespace = some l) (heq : b.Enforce = l.Enforce) :
    psaExtraEntry live b = none := by
  rw [psaExtraEntry_some_arm hlk, if_neg (by simpa using heq)]

theorem psaMissingEntry_equal {live : List NamespacePSA} {b l : NamespacePSA}
    (hlk : lookupNS live b.Namespace = some l) (heq : b.Enforce = l.Enforce) :
    psaMissingEntry live b = none := by
  rw [psaMissingEntry_some_arm hlk, if_neg (by simpa using heq)]

theorem psaExtraEntry_absent {live : List NamespacePSA} {b : NamespacePSA}
    (hlk : lookupNS live b.Namespace = none) : psaExtraEntry live b = none := by
  unfold psaExtraEntry
  rw [hlk]

theorem psaMissingEntry_absent {live : List NamespacePSA} {b : NamespacePSA}
    (hlk : lookupNS live b.Namespace = none) :
    psaMissingEntry live b = some ⟨b.Namespace, b.Enforce, "", "missing"⟩ := by
  unfold psaMissingEntry
  rw [hlk]

theorem psaLiveOnlyEntry_absent {baseline : List NamespacePSA} {l : NamespacePSA}
    (hlk : lookupNS baseline l.Namespace = none) :
    psaLiveOnlyEntry baseline l = some ⟨l.Namespace, "", l.Enforce, "extra"⟩ := by
  unfold psaLiveOnlyEntry
  rw [if_pos (by rw [hlk]; rfl)]

theorem psaLiveOnlyEntry_present {baseline : List NamespacePSA} {l b : NamespacePSA}
    (hlk : lookupNS baseline l.Namespace = some b) :
    psaLiveOnlyEntry baseline l = none := by
  unfold psaLiveOnlyEntry
  rw [if_neg (by rw [hlk]; simp)]

theorem psaExtraEntry_namespace {live : List NamespacePSA} {b : NamespacePSA}
    {e : PSADriftEntry} (h : psaExtraEntry live b = some e) : e.Namespace = b.Namespace := by
  cases hlk : lookupNS live b.Namespace with
  | none => rw [psaExtraEntry_absent hlk] at h; exact absurd h (by simp)
  | some l =>
    rw [psaExtraEntry_some_arm hlk] at h
    by_cases hne : b.Enforce ≠ l.Enforce
    · rw [if_pos hne] at h
      by_cases hm : (classifyPSADirection b.Enforce l.Enforce).1 = "missing"
      · rw [if_pos hm] at h
        exact absurd h (by simp)
      · rw [if_neg hm] at h
        rw [← Option.some.inj h]
    · rw [if_neg hne] at h
      exact absurd h (by simp)

theorem psaMissingEntry_namespace {live : List NamespacePSA} {b : NamespacePSA}
    {e : PSADriftEntry} (h : psaMissingEntry live b = some e) :
    e.Namespace = b.Namespace := by
  cases hlk : lookupNS live b.Namespace with
  | none =>
    rw [psaMissingEntry_absent hlk] at h
    rw [← Option.some.inj h]
  | some l =>
    rw [psaMissingEntry_some_arm hlk] at h
    by_cases hne : b.Enforce ≠ l.Enforce
    · rw [if_pos hne] at h
      by_cases hm : (classifyPSADirection b.Enforce l.Enforce).1 = "missing"
      · rw [if_pos hm] at h
        rw [← Option.some.inj h]
      · rw [if_neg hm] at h
        exact absurd h (by simp)
    · rw [if_neg hne] at h
      exact absurd h (by simp)

theorem psaLiveOnlyEntry_namespace {baseline : List NamespacePSA} {l : NamespacePSA}
    {e : PSADriftEntry} (h : psaLiveOnlyEntry baseline l = some e) :
    e.Namespace = l.Namespace := by
  unfold psaLiveOnlyEntry at h
  by_cases hlk : (lookupNS baseline l.Namespace).isNone = true
  · rw [if_pos hlk] at h
    rw [← Option.some.inj h]
  · rw [if_neg hlk] at h
    exact absurd h (by simp)

theorem psaEntryLe_total (a b : PSADriftEntry) :
    psaEntryLe a b = true ∨ psaEntryLe b a = true :=
  strLe_total a.Namespace b.Namespace

theorem psaEntryLe_trans (a b c : PSADriftEntry) (h1 : psaEntryLe a b = true)
    (h2 : psaEntryLe b c = true) : psaEntryLe a c = true :=
  strLe_trans h1 h2

theorem mem_diffPSA_extra {baseline live : List NamespacePSA} {e : PSADriftEntry} :
    e ∈ (DiffPSA baseline live).Extra ↔
      (∃ b ∈ baseline, psaExtraEntry live b = some e) ∨
      (∃ l ∈ live, psaLiveOnlyEntry baseline l = some e) := by
  unfold DiffPSA
  simp only
  rw [(sortBy_perm psaEntryLe _).mem_iff, List.mem_append, List.mem_filterMap,
    List.mem_filterMap]

theorem mem_diffPSA_missing {baseline live : List NamespacePSA} {e : PSADriftEntry} :
    e ∈ (DiffPSA baseline live).Missing ↔
      ∃ b ∈ baseline, psaMissingEntry live b = some e := by
  unfold DiffPSA
  simp only
  rw [(sortBy_perm psaEntryLe _).mem_iff, List.mem_filterMap]

theorem psa_extra_avoids_ns {baseline live : List NamespacePSA} {ns : String}
    (hbe : ∀ b' ∈ baseline, b'.Namespace = ns → psaExtraEntry live b' = none)
    (hle : ∀ l' ∈ live, l'.Namespace = ns → psaLiveOnlyEntry baseline l' = none) :
    ∀ e ∈ (DiffPSA baseline live).Extra, e.Namespace ≠ ns := by
  intro e he hns
  rcases mem_diffPSA_extra.1 he with ⟨b', hb', hsome⟩ | ⟨l', hl', hsome⟩
  · have := hbe b' hb' ((psaExtraEntry_namespace hsome) ▸ hns)
    rw [this] at hsome
    exact absurd hsome (by simp)
  · have := hle l' hl' ((psaLiveOnlyEntry_namespace hsome) ▸ hns)
    rw [this] at hsome
    exact absurd hsome (by simp)

theorem psa_missing_avoids_ns {baseline live : List NamespacePSA} {ns : String}
    (hbe : ∀ b' ∈ baseline, b'.Namespace = ns → psaMissingEntry live b' = none) :
    ∀ e ∈ (DiffPSA baseline live).Missing, e.Namespace ≠ ns := by
  intro e he hns
  obtain ⟨b', hb', hsome⟩ := mem_diffPSA_missing.1 he
  have := hbe b' hb' ((psaMissingEntry_namespace hsome) ▸ hns)
  rw [this] at hsome
  exact absurd hsome (by simp)

/-- C4: the bucketed PSA differ classifies each namespace purely from the
two enforce levels and presence: weaker transitions land in Extra,
stronger in Missing, equal-rank-but-different in Extra as `different`,
baseline-only namespaces in Missing as `missing`, live-only in Extra as
`extra`; equal enforce values produce no entry; both buckets are sorted by
namespace. -/
theorem C4_diffPSA_bucketed_classification (baseline live : List NamespacePSA)
    (hb : (baseline.map (fun x => x.Namespace)).Nodup) :
    (∀ b ∈ baseline, ∀ l, lookupNS live b.Namespace = some l → b.Enforce ≠ l.Enforce →
      ((psaRank l.Enforce < psaRank b.Enforce →
        ((⟨b.Namespace, b.Enforce, l.Enforce, "weaker"⟩ : PSADriftEntry) ∈
            (DiffPSA baseline live).Extra ∧
         ∀ e ∈ (DiffPSA baseline live).Missing, e.Namespace ≠ b.Namespace)) ∧
       (psaRank b.Enforce < psaRank l.Enforce →
        ((⟨b.Namespace, b.Enforce, l.Enforce, "stronger"⟩ : PSADriftEntry) ∈
            (DiffPSA baseline live).Missing ∧
         ∀ e ∈ (DiffPSA baseline live).Extra, e.Namespace ≠ b.Namespace)) ∧
       (psaRank l.Enforce = psaRank b.Enforce →
        ((⟨b.Namespace, b.Enforce, l.Enforce, "different"⟩ : PSADriftEntry) ∈
            (DiffPSA baseline live).Extra ∧
         ∀ e ∈ (DiffPSA baseline live).Missing, e.Namespace ≠ b.Namespace)))) ∧
    (∀ b ∈ baseline, lookupNS live b.Namespace = none →
      ((⟨b.Namespace, b.Enforce, "", "missing"⟩ : PSADriftEntry) ∈
          (DiffPSA baseline live).Missing ∧
       ∀ e ∈ (DiffPSA baseline live).Extra, e.Namespace ≠ b.Namespace)) ∧
    (∀ l ∈ live, lookupNS baseline l.Namespace = none →
      ((⟨l.Namespace, "", l.Enforce, "extra"⟩ : PSADriftEntry) ∈
          (DiffPSA baseline live).Extra ∧
       ∀ e ∈ (DiffPSA baseline live).Missing, e.Namespace ≠ l.Namespace)) ∧
    (∀ b ∈ baseline, ∀ l, lookupNS live b.Namespace = some l → b.Enforce = l.Enforce →
      ((∀ e ∈ (DiffPSA baseline live).Extra, e.Namespace ≠ b.Namespace) ∧
       (∀ e ∈ (DiffPSA baseline live).Missing, e.Namespace ≠ b.Namespace))) ∧
    List.Pairwise (fun a b => psaEntryLe a b = true) (DiffPSA baseline live).Extra ∧
    List.Pairwise (fun a b => psaEntryLe a b = true) (DiffPSA baseline live).Missing := by
  have hbinj := List.inj_on_of_nodup_map hb
  refine ⟨?_, ?_, ?_, ?_, ?_, ?_⟩
  · intro b hbmem l hlk hne
    refine ⟨?_, ?_, ?_⟩
    · intro hrank
      refine ⟨mem_diffPSA_extra.2 (Or.inl ⟨b, hbmem, psaExtraEntry_weaker hlk hne hrank⟩), ?_⟩
      refine psa_missing_avoids_ns ?_
      intro b' hb' hns
      rw [hbinj hb' hbmem hns]
      exact psaMissingEntry_weaker hlk hne hrank
    · intro hrank
      refine ⟨mem_diffPSA_missing.2 ⟨b, hbmem, psaMissingEntry_stronger hlk hne hrank⟩, ?_⟩
      refine psa_extra_avoids_ns ?_ ?_
      · intro b' hb' hns
        rw [hbinj hb' hbmem hns]
        exact psaExtraEntry_stronger hlk hne hrank
      · intro l' hl' hns
        exact psaLiveOnlyEntry_present (assocFind_mem hb hbmem hns.symm)
    · intro hrank
      refine ⟨mem_diffPSA_extra.2 (Or.inl ⟨b, hbmem, psaExtraEntry_different hlk hne hrank⟩), ?_⟩
      refine psa_missing_avoids_ns ?_
      intro b' hb' hns
      rw [hbinj hb' hbmem hns]
      exact psaMissingEntry_different hlk hne hrank
  · intro b hbmem hlk
    refine ⟨mem_diffPSA_missing.2 ⟨b, hbmem, psaMissingEntry_absent hlk⟩, ?_⟩
    refine psa_extra_avoids_ns ?_ ?_
    · intro b' hb' hns
      rw [hbinj hb' hbmem hns]
      exact psaExtraEntry_absent hlk
    · intro l' hl' hns
      exact absurd hns (by
        have := assocFind_eq_none.1 hlk l' hl'
        exact this)
  · intro l hlmem hlk
    refine ⟨mem_diffPSA_extra.2 (Or.inr ⟨l, hlmem, psaLiveOnlyEntry_absent hlk⟩), ?_⟩
    refine psa_missing_avoids_ns ?_
    intro b' hb' hns
    exact absurd hns (assocFind_eq_none.1 hlk b' hb')
  · intro b hbmem l hlk heq
    constructor
    · refine psa_extra_avoids_ns ?_ ?_
      · intro b' hb' hns
        rw [hbinj hb' hbmem hns]
        exact psaExtraEntry_equal hlk heq
      · intro l' hl' hns
        exact psaLiveOnlyEntry_present (assocFind_mem hb hbmem hns.symm)
    · refine psa_missing_avoids_ns ?_
      intro b' hb' hns
      rw [hbinj hb' hbmem hns]
      exact psaMissingEntry_equal hlk heq
  · exact sortBy_pairwise psaEntryLe psaEntryLe_total psaEntryLe_trans _
  · exact sortBy_pairwise psaEntryLe psaEntryLe_total psaEntryLe_trans _

/-- Witness for C4 on concrete snapshots covering the weaker, missing and
extra transitions of the spec's examples. -/
theorem C4_diffPSA_bucketed_classification_witness :
    (⟨"a", "restricted", "baseline", "weaker"⟩ : PSADriftEntry) ∈
      (DiffPSA [⟨"a", "restricted", "", ""⟩, ⟨"c", "baseline", "", ""⟩]
        [⟨"a", "baseline", "", ""⟩, ⟨"d", "baseline", "", ""⟩]).Extra ∧
    (⟨"c", "baseline", "", "missing"⟩ : PSADriftEntry) ∈
      (DiffPSA [⟨"a", "restricted", "", ""⟩, ⟨"c", "baseline", "", ""⟩]
        [⟨"a", "baseline", "", ""⟩, ⟨"d", "baseline", "", ""⟩]).Missing ∧
    (⟨"d", "", "baseline", "extra"⟩ : PSADriftEntry) ∈
      (DiffPSA [⟨"a", "restricted", "", ""⟩, ⟨"c", "baseline", "", ""⟩]
        [⟨"a", "baseline", "", ""⟩, ⟨"d", "baseline", "", ""⟩]).Extra := by
  have h := C4_diffPSA_bucketed_classification
    [⟨"a", "restricted", "", ""⟩, ⟨"c", "baseline", "", ""⟩]
    [⟨"a", "baseline", "", ""⟩, ⟨"d", "baseline", "", ""⟩] (by decide)
  refine ⟨?_, ?_, ?_⟩
  · exact ((h.1 ⟨"a", "restricted", "", ""⟩ (by decide) ⟨"a", "baseline", "", ""⟩
      (by decide) (by decide)).1 (by decide)).1
  · exact (h.2.1 ⟨"c", "baseline", "", ""⟩ (by decide) (by decide)).1
  · exact (h.2.2.1 ⟨"d", "baseline", "", ""⟩ (by decide) (by decide)).1

/-! ### Lexicographic (namespace, name) order lemmas -/

theorem strLt_irrefl (a : String) : strLt a a = false := natListLt_irrefl _

theorem strLt_asymm {a b : String} (h : strLt a b = true) : strLt b a = false := by
  by_contra hba
  rw [Bool.not_eq_false] at hba
  have := natListLt_trans _ _ _ h hba
  rw [natListLt_irrefl] at this
  exact absurd this (by simp)

theorem strLt_trans {a b c : String} (h1 : strLt a b = true) (h2 : strLt b c = true) :
    strLt a c = true := natListLt_trans _ _ _ h1 h2

theorem strLt_eq_of_not {a b : String} (h1 : strLt a b = false) (h2 : strLt b a = false) :
    a = b := strEq_of_data_map_eq (natListLt_eq_of_not _ _ h1 h2)

/-- The boolean `le` induced by the Go lexicographic `less` on
(namespace, name) pairs. -/
def pairLe (a b : String × String) : Bool :=
  ! (if b.1 = a.1 then strLt b.2 a.2 else strLt b.1 a.1)

theorem pairLe_iff (x y : String × String) :
    pairLe x y = true ↔
      (strLt x.1 y.1 = true ∨ (x.1 = y.1 ∧ strLt y.2 x.2 = false)) := by
  unfold pairLe
  by_cases h : y.1 = x.1
  · rw [if_pos h]
    constructor
    · intro hb
      rw [Bool.not_eq_true'] at hb
      exact Or.inr ⟨h.symm, hb⟩
    · intro hb
      rcases hb with hb | ⟨_, hb⟩
      · rw [h] at hb
        rw [strLt_irrefl] at hb
        exact absurd hb (by simp)
      · rw [Bool.not_eq_true', hb]
  · rw [if_neg h]
    constructor
    · intro hb
      rw [Bool.not_eq_true'] at hb
      left
      by_contra hxy
      rw [Bool.not_eq_true] at hxy
      exact h (strLt_eq_of_not hb hxy)
    · intro hb
      rcases hb with hb | ⟨heq, _⟩
      · rw [Bool.not_eq_true', strLt_asymm hb]
      · exact absurd heq.symm h

theorem pairLe_total (x y : String × String) : pairLe x y = true ∨ pairLe y x = true := by
  rw [pairLe_iff, pairLe_iff]
  by_cases h1 : strLt x.1 y.1 = true
  · exact Or.inl (Or.inl h1)
  · by_cases h2 : strLt y.1 x.1 = true
    · exact Or.inr (Or.inl h2)
    · rw [Bool.not_eq_true] at h1 h2
      have heq := strLt_eq_of_not h1 h2
      by_cases h3 : strLt y.2 x.2 = true
      · exact Or.inr (Or.inr ⟨heq.symm, strLt_asymm h3⟩)
      · rw [Bool.not_eq_true] at h3
        exact Or.inl (Or.inr ⟨heq, h3⟩)

theorem pairLe_trans {x y z : String × String} (h1 : pairLe x y = true)
    (h2 : pairLe y z = true) : pairLe x z = true := by
  rw [pairLe_iff] at h1 h2 ⊢
  rcases h1 with h1 | ⟨he1, hn1⟩ <;> rcases h2 with h2 | ⟨he2, hn2⟩
  · exact Or.inl (strLt_trans h1 h2)
  · exact Or.inl (he2 ▸ h1)
  · exact Or.inl (he1 ▸ h2)
  · refine Or.inr ⟨he1.trans he2, ?_⟩
    have hs1 : strLe x.2 y.2 = true := by unfold strLe; rw [hn1]; rfl
    have hs2 : strLe y.2 z.2 = true := by unfold strLe; rw [hn2]; rfl
    have := strLe_trans hs1 hs2
    unfold strLe at this
    rw [Bool.not_eq_true'] at this
    exact this

theorem pairLe_antisymm {x y : String × String} (h1 : pairLe x y = true)
    (h2 : pairLe y x = true) : x = y := by
  rw [pairLe_iff] at h1 h2
  rcases h1 with h1 | ⟨he1, hn1⟩ <;> rcases h2 with h2 | ⟨he2, hn2⟩
  · rw [strLt_asymm h1] at h2
    exact absurd h2 (by simp)
  · rw [he2] at h1
    rw [strLt_irrefl] at h1
    exact absurd h1 (by simp)
  · rw [he1] at h2
    rw [strLt_irrefl] at h2
    exact absurd h2 (by simp)
  · have hn := strLt_eq_of_not hn2 hn1
    exact Prod.ext he1 hn

theorem refLe_eq_pairLe (a b : NetPolRef) :
    refLe a b = pairLe (a.Namespace, a.Name) (b.Namespace, b.Name) := rfl

theorem changeLe_eq_pairLe (a b : NetPolChange) :
    changeLe a b = pairLe (a.Namespace, a.Name) (b.Namespace, b.Name) := rfl

theorem refLe_total (a b : NetPolRef) : refLe a b = true ∨ refLe b a = true := by
  rw [refLe_eq_pairLe, refLe_eq_pairLe]
  exact pairLe_total _ _

theorem refLe_trans (a b c : NetPolRef) (h1 : refLe a b = true) (h2 : refLe b c = true) :
    refLe a c = true := by
  rw [refLe_eq_pairLe] at h1 h2 ⊢
  exact pairLe_trans h1 h2

theorem changeLe_total (a b : NetPolChange) : changeLe a b = true ∨ changeLe b a = true := by
  rw [changeLe_eq_pairLe, changeLe_eq_pairLe]
  exact pairLe_total _ _

theorem changeLe_trans (a b c : NetPolChange) (h1 : changeLe a b = true)
    (h2 : changeLe b c = true) : changeLe a c = true := by
  rw [changeLe_eq_pairLe] at h1 h2 ⊢
  exact pairLe_trans h1 h2

/-! ### NetworkPolicy differ: per-key evaluation and inversion -/

theorem netpolMissingEntry_some {baseline live : NetPolSnapshot} {key : String}
    {d : NetPolDigest} (hb : lookupItem baseline key = some d)
    (hl : lookupItem live key = none) :
    netpolMissingEntry baseline live key = some ⟨d.Namespace, d.Name⟩ := by
  unfold netpolMissingEntry
  rw [hb, hl]

theorem netpolExtraEntry_some {baseline live : NetPolSnapshot} {key : String}
    {d : NetPolDigest} (hb : lookupItem baseline key = none)
    (hl : lookupItem live key = some d) :
    netpolExtraEntry baseline live key = some ⟨d.Namespace, d.Name⟩ := by
  unfold netpolExtraEntry
  rw [hb, hl]

theorem netpolChangedEntry_arm {baseline live : NetPolSnapshot} {key : String}
    {db dl : NetPolDigest} (hb : lookupItem baseline key = some db)
    (hl : lookupItem live key = some dl) :
    netpolChangedEntry baseline live key =
      (if db.SpecHash ≠ dl.SpecHash then some ⟨db.Namespace, db.Name, db, dl⟩
       else none) := by
  unfold netpolChangedEntry
  rw [hb, hl]

theorem netpolChangedEntry_some {baseline live : NetPolSnapshot} {key : String}
    {db dl : NetPolDigest} (hb : lookupItem baseline key = some db)
    (hl : lookupItem live key = some dl) (hne : db.SpecHash ≠ dl.SpecHash) :
    netpolChangedEntry baseline live key = some ⟨db.Namespace, db.Name, db, dl⟩ := by
  rw [netpolChangedEntry_arm hb hl, if_pos hne]

theorem netpolChangedEntry_eqhash {baseline live : NetPolSnapshot} {key : String}
    {db dl : NetPolDigest} (hb : lookupItem baseline key = some db)
    (hl : lookupItem live key = some dl) (heq : db.SpecHash = dl.SpecHash) :
    netpolChangedEntry baseline live key = none := by
  rw [netpolChangedEntry_arm hb hl, if_neg (by simpa using heq)]

theorem netpolMissingEntry_inv {baseline live : NetPolSnapshot} {key : String}
    {r : NetPolRef} (h : netpolMissingEntry baseline live key = some r) :
    ∃ d, lookupItem baseline key = some d ∧ lookupItem live key = none ∧
      r = ⟨d.Namespace, d.Name⟩ := by
  unfold netpolMissingEntry at h
  cases hb : lookupItem baseline key with
  | none =>
    rw [hb] at h
    cases hl : lookupItem live key with
    | none => rw [hl] at h; exact absurd h (by simp)
    | some dl => rw [hl] at h; exact absurd h (by simp)
  | some db =>
    cases hl : lookupItem live key with
    | none =>
      rw [hb, hl] at h
      exact ⟨db, rfl, rfl, (Option.some.inj h).symm⟩
    | some dl => rw [hb, hl] at h; exact absurd h (by simp)

theorem netpolExtraEntry_inv {baseline live : NetPolSnapshot} {key : String}
    {r : NetPolRef} (h : netpolExtraEntry baseline live key = some r) :
    ∃ d, lookupItem baseline key = none ∧ lookupItem live key = some d ∧
      r = ⟨d.Namespace, d.Name⟩ := by
  unfold netpolExtraEntry at h
  cases hb : lookupItem baseline key with
  | none =>
    cases hl : lookupItem live key with
    | none => rw [hb, hl] at h; exact absurd h (by simp)
    | some dl =>
      rw [hb, hl] at h
      exact ⟨dl, rfl, rfl, (Option.some.inj h).symm⟩
  | some db =>
    cases hl : lookupItem live key with
    | none => rw [hb, hl] at h; exact absurd h (by simp)
    | some dl => rw [hb, hl] at h; exact absurd h (by simp)

theorem netpolChangedEntry_inv {baseline live : NetPolSnapshot} {key : String}
    {c : NetPolChange} (h : netpolChangedEntry baseline live key = some c) :
    ∃ db dl, lookupItem baseline key = some db ∧ lookupItem live key = some dl ∧
      db.SpecHash ≠ dl.SpecHash ∧ c = ⟨db.Namespace, db.Name, db, dl⟩ := by
  unfold netpolChangedEntry at h
  cases hb : lookupItem baseline key with
  | none =>
    cases hl : lookupItem live key with
    | none => rw [hb, hl] at h; exact absurd h (by simp)
    | some dl => rw [hb, hl] at h; exact absurd h (by simp)
  | some db =>
    cases hl : lookupItem live key with
    | none => rw [hb, hl] at h; exact absurd h (by simp)
    | some dl =>
      rw [hb, hl] at h
      have h2 : (if db.SpecHash ≠ dl.SpecHash then
          some (⟨db.Namespace, db.Name, db, dl⟩ : NetPolChange) else none) = some c := h
      by_cases hne : db.SpecHash ≠ dl.SpecHash
      · rw [if_pos hne] at h2
        exact ⟨db, dl, rfl, rfl, hne, (Option.some.inj h2).symm⟩
      · rw [if_neg hne] at h2
        exact absurd h2 (by simp)

/-- Well-formedness of a NetworkPolicy snapshot as produced by the
collector: every key is the `namespace/name` of its digest. -/
def NetPolWF (snap : NetPolSnapshot) : Prop :=
  ∀ kv ∈ snap.Items, kv.1 = kv.2.Namespace ++ "/" ++ kv.2.Name

theorem lookupItem_wf {snap : NetPolSnapshot} {k : String} {d : NetPolDigest}
    (hw : NetPolWF snap) (h : lookupItem snap k = some d) :
    k = d.Namespace ++ "/" ++ d.Name := by
  unfold lookupItem at h
  rw [Option.map_eq_some'] at h
  obtain ⟨kv, hkv, hsnd⟩ := h
  obtain ⟨hmem, hfst⟩ := assocFind_some hkv
  rw [← hfst, ← hsnd]
  exact hw kv hmem

theorem lookupItem_some_mem_left {baseline live : NetPolSnapshot} {k : String}
    {d : NetPolDigest} (h : lookupItem baseline k = some d) :
    k ∈ unionKeys baseline live := by
  unfold lookupItem at h
  rw [Option.map_eq_some'] at h
  obtain ⟨kv, hkv, _⟩ := h
  obtain ⟨hmem, hfst⟩ := assocFind_some hkv
  unfold unionKeys
  rw [List.mem_dedup, List.mem_append]
  exact Or.inl (hfst ▸ List.mem_map_of_mem Prod.fst hmem)

theorem lookupItem_some_mem_right {baseline live : NetPolSnapshot} {k : String}
    {d : NetPolDigest} (h : lookupItem live k = some d) :
    k ∈ unionKeys baseline live := by
  unfold lookupItem at h
  rw [Option.map_eq_some'] at h
  obtain ⟨kv, hkv, _⟩ := h
  obtain ⟨hmem, hfst⟩ := assocFind_some hkv
  unfold unionKeys
  rw [List.mem_dedup, List.mem_append]
  exact Or.inr (hfst ▸ List.mem_map_of_mem Prod.fst hmem)

theorem mem_diffNetPol_missing {baseline live : NetPolSnapshot} {r : NetPolRef} :
    r ∈ (DiffNetworkPolicies baseline live).Missing ↔
      ∃ k ∈ unionKeys baseline live, netpolMissingEntry baseline live k = some r := by
  unfold DiffNetworkPolicies
  simp only
  rw [(sortBy_perm refLe _).mem_iff, List.mem_filterMap]

theorem mem_diffNetPol_extra {baseline live : NetPolSnapshot} {r : NetPolRef} :
    r ∈ (DiffNetworkPolicies baseline live).Extra ↔
      ∃ k ∈ unionKeys baseline live, netpolExtraEntry baseline live k = some r := by
  unfold DiffNetworkPolicies
  simp only
  rw [(sortBy_perm refLe _).mem_iff, List.mem_filterMap]

theorem mem_diffNetPol_changed {baseline live : NetPolSnapshot} {c : NetPolChange} :
    c ∈ (DiffNetworkPolicies baseline live).Changed ↔
      ∃ k ∈ unionKeys baseline live, netpolChangedEntry baseline live k = some c := by
  unfold DiffNetworkPolicies
  simp only
  rw [(sortBy_perm changeLe _).mem_iff, List.mem_filterMap]

theorem diffNetPol_missing_inv {baseline live : NetPolSnapshot} (hwb : NetPolWF baseline) :
    ∀ r ∈ (DiffNetworkPolicies baseline live).Missing,
      ∃ d, lookupItem baseline (r.Namespace ++ "/" ++ r.Name) = some d ∧
        lookupItem live (r.Namespace ++ "/" ++ r.Name) = none ∧
        r = ⟨d.Namespace, d.Name⟩ := by
  intro r hr
  obtain ⟨k, _, hsome⟩ := mem_diffNetPol_missing.1 hr
  obtain ⟨d, hbd, hld, hrd⟩ := netpolMissingEntry_inv hsome
  have hkey : k = d.Namespace ++ "/" ++ d.Name := lookupItem_wf hwb hbd
  have hns : r.Namespace = d.Namespace := by rw [hrd]
  have hname : r.Name = d.Name := by rw [hrd]
  have hkr : r.Namespace ++ "/" ++ r.Name = k := by
    rw [hns, hname]
    exact hkey.symm
  exact ⟨d, by rw [hkr]; exact hbd, by rw [hkr]; exact hld, hrd⟩

theorem diffNetPol_extra_inv {baseline live : NetPolSnapshot} (hwl : NetPolWF live) :
    ∀ r ∈ (DiffNetworkPolicies baseline live).Extra,
      ∃ d, lookupItem baseline (r.Namespace ++ "/" ++ r.Name) = none ∧
        lookupItem live (r.Namespace ++ "/" ++ r.Name) = some d ∧
        r = ⟨d.Namespace, d.Name⟩ := by
  intro r hr
  obtain ⟨k, _, hsome⟩ := mem_diffNetPol_extra.1 hr
  obtain ⟨d, hbd, hld, hrd⟩ := netpolExtraEntry_inv hsome
  have hkey : k = d.Namespace ++ "/" ++ d.Name := lookupItem_wf hwl hld
  have hns : r.Namespace = d.Namespace := by rw [hrd]
  have hname : r.Name = d.Name := by rw [hrd]
  have hkr : r.Namespace ++ "/" ++ r.Name = k := by
    rw [hns, hname]
    exact hkey.symm
  exact ⟨d, by rw [hkr]; exact hbd, by rw [hkr]; exact hld, hrd⟩

theorem diffNetPol_changed_inv {baseline live : NetPolSnapshot} (hwb : NetPolWF baseline) :
    ∀ c ∈ (DiffNetworkPolicies baseline live).Changed,
      ∃ db dl, lookupItem baseline (c.Namespace ++ "/" ++ c.Name) = some db ∧
        lookupItem live (c.Namespace ++ "/" ++ c.Name) = some dl ∧
        db.SpecHash ≠ dl.SpecHash ∧ c = ⟨db.Namespace, db.Name, db, dl⟩ := by
  intro c hc
  obtain ⟨k, _, hsome⟩ := mem_diffNetPol_changed.1 hc
  obtain ⟨db, dl, hbd, hld, hne, hcd⟩ := netpolChangedEntry_inv hsome
  have hkey : k = db.Namespace ++ "/" ++ db.Name := lookupItem_wf hwb hbd
  have hns : c.Namespace = db.Namespace := by rw [hcd]
  have hname : c.Name = db.Name := by rw [hcd]
  have hkr : c.Namespace ++ "/" ++ c.Name = k := by
    rw [hns, hname]
    exact hkey.symm
  exact ⟨db, dl, by rw [hkr]; exact hbd, by rw [hkr]; exact hld, hne, hcd⟩

/-- C6: the NetworkPolicy differ puts each key of the union into at most one
bucket — Missing iff baseline-only, Extra iff live-only, Changed iff present
in both with differing spec hashes (carrying both digests) — equal hashes
produce no entry, and all three output lists are sorted by
(namespace, name). -/
theorem C6_diffNetPol_bucket_partition (baseline live : NetPolSnapshot)
    (hwb : NetPolWF baseline) (hwl : NetPolWF live) :
    (∀ k d, lookupItem baseline k = some d → lookupItem live k = none →
      ((⟨d.Namespace, d.Name⟩ : NetPolRef) ∈ (DiffNetworkPolicies baseline live).Missing ∧
       (∀ r ∈ (DiffNetworkPolicies baseline live).Extra,
         r.Namespace ++ "/" ++ r.Name ≠ k) ∧
       (∀ c ∈ (DiffNetworkPolicies baseline live).Changed,
         c.Namespace ++ "/" ++ c.Name ≠ k))) ∧
    (∀ k d, lookupItem baseline k = none → lookupItem live k = some d →
      ((⟨d.Namespace, d.Name⟩ : NetPolRef) ∈ (DiffNetworkPolicies baseline live).Extra ∧
       (∀ r ∈ (DiffNetworkPolicies baseline live).Missing,
         r.Namespace ++ "/" ++ r.Name ≠ k) ∧
       (∀ c ∈ (DiffNetworkPolicies baseline live).Changed,
         c.Namespace ++ "/" ++ c.Name ≠ k))) ∧
    (∀ k db dl, lookupItem baseline k = some db → lookupItem live k = some dl →
      db.SpecHash ≠ dl.SpecHash →
      ((⟨db.Namespace, db.Name, db, dl⟩ : NetPolChange) ∈
          (DiffNetworkPolicies baseline live).Changed ∧
       (∀ r ∈ (DiffNetworkPolicies baseline live).Missing,
         r.Namespace ++ "/" ++ r.Name ≠ k) ∧
       (∀ r ∈ (DiffNetworkPolicies baseline live).Extra,
         r.Namespace ++ "/" ++ r.Name ≠ k))) ∧
    (∀ k db dl, lookupItem baseline k = some db → lookupItem live k = some dl →
      db.SpecHash = dl.SpecHash →
      ((∀ r ∈ (DiffNetworkPolicies baseline live).Missing,
         r.Namespace ++ "/" ++ r.Name ≠ k) ∧
       (∀ r ∈ (DiffNetworkPolicies baseline live).Extra,
         r.Namespace ++ "/" ++ r.Name ≠ k) ∧
       (∀ c ∈ (DiffNetworkPolicies baseline live).Changed,
         c.Namespace ++ "/" ++ c.Name ≠ k))) ∧
    List.Pairwise (fun a b => refLe a b = true) (DiffNetworkPolicies baseline live).Missing ∧
    List.Pairwise (fun a b => refLe a b = true) (DiffNetworkPolicies baseline live).Extra ∧
    List.Pairwise (fun a b => changeLe a b = true)
      (DiffNetworkPolicies baseline live).Changed := by
  refine ⟨?_, ?_, ?_, ?_, ?_, ?_, ?_⟩
  · intro k d hb hl
    refine ⟨?_, ?_, ?_⟩
    · exact mem_diffNetPol_missing.2
        ⟨k, lookupItem_some_mem_left hb, netpolMissingEntry_some hb hl⟩
    · intro r hr hkey
      obtain ⟨d', hbn, _, _⟩ := diffNetPol_extra_inv hwl r hr
      rw [hkey] at hbn
      rw [hbn] at hb
      exact absurd hb (by simp)
    · intro c hc hkey
      obtain ⟨db', dl', _, hln, _, _⟩ := diffNetPol_changed_inv hwb c hc
      rw [hkey] at hln
      rw [hln] at hl
      exact absurd hl (by simp)
  · intro k d hb hl
    refine ⟨?_, ?_, ?_⟩
    · exact mem_diffNetPol_extra.2
        ⟨k, lookupItem_some_mem_right hl, netpolExtraEntry_some hb hl⟩
    · intro r hr hkey
      obtain ⟨d', hbs, _, _⟩ := diffNetPol_missing_inv hwb r hr
      rw [hkey] at hbs
      rw [hbs] at hb
      exact absurd hb (by simp)
    · intro c hc hkey
      obtain ⟨db', dl', hbs, _, _, _⟩ := diffNetPol_changed_inv hwb c hc
      rw [hkey] at hbs
      rw [hbs] at hb
      exact absurd hb (by simp)
  · intro k db dl hb hl hne
    refine ⟨?_, ?_, ?_⟩
    · exact mem_diffNetPol_changed.2
        ⟨k, lookupItem_some_mem_left hb, netpolChangedEntry_some hb hl hne⟩
    · intro r hr hkey
      obtain ⟨d', _, hln, _⟩ := diffNetPol_missing_inv hwb r hr
      rw [hkey] at hln
      rw [hln] at hl
      exact absurd hl (by simp)
    · intro r hr hkey
      obtain ⟨d', hbn, _, _⟩ := diffNetPol_extra_inv hwl r hr
      rw [hkey] at hbn
      rw [hbn] at hb
      exact absurd hb (by simp)
  · intro k db dl hb hl heq
    refine ⟨?_, ?_, ?_⟩
    · intro r hr hkey
      obtain ⟨d', _, hln, _⟩ := diffNetPol_missing_inv hwb r hr
      rw [hkey] at hln
      rw [hln] at hl
      exact absurd hl (by simp)
    · intro r hr hkey
      obtain ⟨d', hbn, _, _⟩ := diffNetPol_extra_inv hwl r hr
      rw [hkey] at hbn
      rw [hbn] at hb
      exact absurd hb (by simp)
    · intro c hc hkey
      obtain ⟨db', dl', hbs, hls, hne', _⟩ := diffNetPol_changed_inv hwb c hc
      rw [hkey] at hbs hls
      rw [hbs] at hb
      rw [hls] at hl
      exact hne' (by rw [Option.some.inj hb, Option.some.inj hl]; exact heq)
  · exact sortBy_pairwise refLe refLe_total refLe_trans _
  · exact sortBy_pairwise refLe refLe_total refLe_trans _
  · exact sortBy_pairwise changeLe changeLe_total changeLe_trans _

/-- Witness for C6 on concrete snapshots with one missing, one extra and one
changed policy. -/
theorem C6_diffNetPol_bucket_partition_witness :
    (⟨"a", "x"⟩ : NetPolRef) ∈
      (DiffNetworkPolicies
        ⟨[("a/x", ⟨"a", "x", "h1", [], 0, 0⟩), ("a/y", ⟨"a", "y", "h2", [], 1, 0⟩)]⟩
        ⟨[("a/y", ⟨"a", "y", "h3", [], 2, 0⟩), ("b/z", ⟨"b", "z", "h4", [], 0, 1⟩)]⟩).Missing ∧
    (⟨"b", "z"⟩ : NetPolRef) ∈
      (DiffNetworkPolicies
        ⟨[("a/x", ⟨"a", "x", "h1", [], 0, 0⟩), ("a/y", ⟨"a", "y", "h2", [], 1, 0⟩)]⟩
        ⟨[("a/y", ⟨"a", "y", "h3", [], 2, 0⟩), ("b/z", ⟨"b", "z", "h4", [], 0, 1⟩)]⟩).Extra ∧
    (⟨"a", "y", ⟨"a", "y", "h2", [], 1, 0⟩, ⟨"a", "y", "h3", [], 2, 0⟩⟩ : NetPolChange) ∈
      (DiffNetworkPolicies
        ⟨[("a/x", ⟨"a", "x", "h1", [], 0, 0⟩), ("a/y", ⟨"a", "y", "h2", [], 1, 0⟩)]⟩
        ⟨[("a/y", ⟨"a", "y", "h3", [], 2, 0⟩), ("b/z", ⟨"b", "z", "h4", [], 0, 1⟩)]⟩).Changed := by
  have h := C6_diffNetPol_bucket_partition
    ⟨[("a/x", ⟨"a", "x", "h1", [], 0, 0⟩), ("a/y", ⟨"a", "y", "h2", [], 1, 0⟩)]⟩
    ⟨[("a/y", ⟨"a", "y", "h3", [], 2, 0⟩), ("b/z", ⟨"b", "z", "h4", [], 0, 1⟩)]⟩
    (by intro kv hkv; fin_cases hkv <;> rfl) (by intro kv hkv; fin_cases hkv <;> rfl)
  refine ⟨?_, ?_, ?_⟩
  · exact (h.1 "a/x" ⟨"a", "x", "h1", [], 0, 0⟩ (by decide) (by decide)).1
  · exact (h.2.1 "b/z" ⟨"b", "z", "h4", [], 0, 1⟩ (by decide) (by decide)).1
  · exact (h.2.2.1 "a/y" ⟨"a", "y", "h2", [], 1, 0⟩ ⟨"a", "y", "h3", [], 2, 0⟩
      (by decide) (by decide) (by decide)).1

/-! ### Determinism: representation invariance of the differs -/

/-- Two list representations denote the same RBAC snapshot value when every
subject reads the same permission set (up to order). -/
def RBACSnapshotEquiv (A B : RBACSnapshot) : Prop :=
  ∀ k, (subjectPerms A k).Perm (subjectPerms B k)

/-- Equality up to order of two optional permission lists. -/
def OptPermEquiv : Option (List Permission) → Option (List Permission) → Prop
  | none, none => True
  | some a, some b => a.Perm b
  | _, _ => False

theorem subjectPerms_of_some {s : RBACSnapshot} {k : SubjectKey}
    {kv : SubjectKey × List Permission} (h : assocFind Prod.fst s.Subjects k = some kv) :
    subjectPerms s k = kv.2 := by
  unfold subjectPerms
  rw [h]

theorem subjectPerms_of_none {s : RBACSnapshot} {k : SubjectKey}
    (h : assocFind Prod.fst s.Subjects k = none) : subjectPerms s k = [] := by
  unfold subjectPerms
  rw [h]

theorem subjectPerms_of_not_mem {s : RBACSnapshot} {k : SubjectKey}
    (h : k ∉ s.Subjects.map Prod.fst) : subjectPerms s k = [] := by
  refine subjectPerms_of_none (assocFind_eq_none.2 ?_)
  intro kv hkv hk
  exact h (hk ▸ List.mem_map_of_mem Prod.fst hkv)

theorem extraOf_none_of_live_nil {baseline live : RBACSnapshot} {k : SubjectKey}
    (h : subjectPerms live k = []) : extraOf baseline live k = none := by
  unfold extraOf
  rw [if_neg (by rw [h]; simp)]

theorem extraOf_eq (baseline live : RBACSnapshot) (k : SubjectKey) :
    extraOf baseline live k =
      (if (subjectPerms live k).length > 0 then
        (if ((subjectPerms live k).filter
            (fun p => decide (p ∉ subjectPerms baseline k))).length > 0
         then some ((subjectPerms live k).filter
            (fun p => decide (p ∉ subjectPerms baseline k)))
         else none)
      else none) := rfl

theorem extraOf_congr {A A' B B' : RBACSnapshot} (hA : RBACSnapshotEquiv A A')
    (hB : RBACSnapshotEquiv B B') (k : SubjectKey) :
    OptPermEquiv (extraOf A B k) (extraOf A' B' k) := by
  rw [extraOf_eq, extraOf_eq]
  have hlive := hB k
  have hbase := hA k
  by_cases hl : (subjectPerms B k).length > 0
  · have hl' : (subjectPerms B' k).length > 0 := by
      rw [← hlive.length_eq]
      exact hl
    rw [if_pos hl, if_pos hl']
    have hpred : ∀ p ∈ subjectPerms B' k,
        (decide (p ∉ subjectPerms A k)) = (decide (p ∉ subjectPerms A' k)) := by
      intro p _
      by_cases hp : p ∈ subjectPerms A k
      · have hp' : p ∈ subjectPerms A' k := hbase.mem_iff.1 hp
        simp [hp, hp']
      · have hp' : p ∉ subjectPerms A' k := fun hq => hp (hbase.mem_iff.2 hq)
        simp [hp, hp']
    have hfil : ((subjectPerms B k).filter (fun p => decide (p ∉ subjectPerms A k))).Perm
        ((subjectPerms B' k).filter (fun p => decide (p ∉ subjectPerms A' k))) := by
      have h1 := hlive.filter (fun p => decide (p ∉ subjectPerms A k))
      rw [List.filter_congr hpred] at h1
      exact h1
    by_cases hx : ((subjectPerms B k).filter
        (fun p => decide (p ∉ subjectPerms A k))).length > 0
    · have hx' : ((subjectPerms B' k).filter
          (fun p => decide (p ∉ subjectPerms A' k))).length > 0 := by
        rw [← hfil.length_eq]
        exact hx
      rw [if_pos hx, if_pos hx']
      exact hfil
    · have hx' : ¬ ((subjectPerms B' k).filter
          (fun p => decide (p ∉ subjectPerms A' k))).length > 0 := by
        rw [← hfil.length_eq]
        exact hx
      rw [if_neg hx, if_neg hx']
      exact trivial
  · have hl' : ¬ (subjectPerms B' k).length > 0 := by
      rw [← hlive.length_eq]
      exact hl
    rw [if_neg hl, if_neg hl']
    exact trivial

theorem not_mem_unionSubjects_nil {A B : RBACSnapshot} {k : SubjectKey}
    (h : k ∉ unionSubjects A B) :
    subjectPerms A k = [] ∧ subjectPerms B k = [] := by
  unfold unionSubjects at h
  rw [List.mem_dedup, List.mem_append] at h
  push_neg at h
  exact ⟨subjectPerms_of_not_mem h.1, subjectPerms_of_not_mem h.2⟩

theorem driftLookup_extra_congr {A A' B B' : RBACSnapshot}
    (hA : RBACSnapshotEquiv A A') (hB : RBACSnapshotEquiv B B') (subj : SubjectKey) :
    OptPermEquiv (driftLookup (DiffRBAC A B).Extra subj)
      (driftLookup (DiffRBAC A' B').Extra subj) := by
  rw [driftLookup_diffRBAC_extra, driftLookup_diffRBAC_extra]
  by_cases h1 : subj ∈ unionSubjects A B
  · rw [if_pos h1]
    by_cases h2 : subj ∈ unionSubjects A' B'
    · rw [if_pos h2]
      exact extraOf_congr hA hB subj
    · rw [if_neg h2]
      have hnil := (not_mem_unionSubjects_nil h2).2
      have hperm := hB subj
      rw [hnil] at hperm
      rw [extraOf_none_of_live_nil hperm.eq_nil]
      exact trivial
  · rw [if_neg h1]
    by_cases h2 : subj ∈ unionSubjects A' B'
    · rw [if_pos h2]
      have hnil := (not_mem_unionSubjects_nil h1).2
      have hperm := (hB subj).symm
      rw [hnil] at hperm
      rw [extraOf_none_of_live_nil hperm.eq_nil]
      exact trivial
    · rw [if_neg h2]
      exact trivial

theorem lookupItem_congr {b b' : NetPolSnapshot} (hperm : b.Items.Perm b'.Items)
    (hnd : (b.Items.map Prod.fst).Nodup) (k : String) :
    lookupItem b k = lookupItem b' k := by
  unfold lookupItem
  rw [assocFind_perm hperm hnd]

theorem unionKeys_perm {b b' l l' : NetPolSnapshot} (hb : b.Items.Perm b'.Items)
    (hl : l.Items.Perm l'.Items) : (unionKeys b l).Perm (unionKeys b' l') :=
  ((hb.map Prod.fst).append (hl.map Prod.fst)).dedup

theorem refLe_antisymm {a b : NetPolRef} (h1 : refLe a b = true) (h2 : refLe b a = true) :
    a = b := by
  rw [refLe_eq_pairLe] at h1 h2
  have hpair := pairLe_antisymm h1 h2
  have hns : a.Namespace = b.Namespace := congrArg Prod.fst hpair
  have hname : a.Name = b.Name := congrArg Prod.snd hpair
  cases a
  cases b
  simp only at hns hname
  rw [hns, hname]

theorem diffNetPol_changed_unique {baseline live : NetPolSnapshot}
    (hwb : NetPolWF baseline) :
    ∀ c1 ∈ (DiffNetworkPolicies baseline live).Changed,
    ∀ c2 ∈ (DiffNetworkPolicies baseline live).Changed,
      changeLe c1 c2 = true → changeLe c2 c1 = true → c1 = c2 := by
  intro c1 h1 c2 h2 hle1 hle2
  rw [changeLe_eq_pairLe] at hle1 hle2
  have hpair := pairLe_antisymm hle1 hle2
  have hns : c1.Namespace = c2.Namespace := congrArg Prod.fst hpair
  have hname : c1.Name = c2.Name := congrArg Prod.snd hpair
  obtain ⟨db1, dl1, hb1, hl1, _, hc1⟩ := diffNetPol_changed_inv hwb c1 h1
  obtain ⟨db2, dl2, hb2, hl2, _, hc2⟩ := diffNetPol_changed_inv hwb c2 h2
  rw [hns, hname] at hb1 hl1
  have hdb : db1 = db2 := Option.some.inj (hb1.symm.trans hb2)
  have hdl : dl1 = dl2 := Option.some.inj (hl1.symm.trans hl2)
  rw [hc1, hc2, hdb, hdl]

theorem lookupNS_congr {b b' : List NamespacePSA} (hperm : b.Perm b')
    (hnd : (b.map (fun x => x.Namespace)).Nodup) (ns : String) :
    lookupNS b ns = lookupNS b' ns :=
  assocFind_perm hperm hnd

theorem psaLiveOnlyEntry_inv {baseline : List NamespacePSA} {l0 : NamespacePSA}
    {e : PSADriftEntry} (h : psaLiveOnlyEntry baseline l0 = some e) :
    lookupNS baseline l0.Namespace = none ∧
      e = ⟨l0.Namespace, "", l0.Enforce, "extra"⟩ := by
  unfold psaLiveOnlyEntry at h
  by_cases hk : (lookupNS baseline l0.Namespace).isNone = true
  · rw [if_pos hk] at h
    exact ⟨Option.isNone_iff_eq_none.1 hk, (Option.some.inj h).symm⟩
  · rw [if_neg hk] at h
    exact absurd h (by simp)

theorem psa_extra_unique {baseline live : List NamespacePSA}
    (hnb : (baseline.map (fun x => x.Namespace)).Nodup)
    (hnl : (live.map (fun x => x.Namespace)).Nodup) :
    ∀ e1 ∈ (DiffPSA baseline live).Extra, ∀ e2 ∈ (DiffPSA baseline live).Extra,
      e1.Namespace = e2.Namespace → e1 = e2 := by
  have hbinj := List.inj_on_of_nodup_map hnb
  have hlinj := List.inj_on_of_nodup_map hnl
  intro e1 h1 e2 h2 hns
  rcases mem_diffPSA_extra.1 h1 with ⟨b1, hb1, hs1⟩ | ⟨l1, hl1, hs1⟩ <;>
    rcases mem_diffPSA_extra.1 h2 with ⟨b2, hb2, hs2⟩ | ⟨l2, hl2, hs2⟩
  · have hb12 : b1 = b2 := hbinj hb1 hb2
      (by rw [← psaExtraEntry_namespace hs1, ← psaExtraEntry_namespace hs2, hns])
    rw [hb12] at hs1
    exact Option.some.inj (hs1.symm.trans hs2)
  · have hnone := (psaLiveOnlyEntry_inv hs2).1
    have hb1ns : b1.Namespace = l2.Namespace := by
      rw [← psaExtraEntry_namespace hs1, ← psaLiveOnlyEntry_namespace hs2, hns]
    have hsome : lookupNS baseline l2.Namespace = some b1 := assocFind_mem hnb hb1 hb1ns
    exact absurd (hsome.symm.trans hnone) (by simp)
  · have hnone := (psaLiveOnlyEntry_inv hs1).1
    have hb2ns : b2.Namespace = l1.Namespace := by
      rw [← psaExtraEntry_namespace hs2, ← psaLiveOnlyEntry_namespace hs1, hns]
    have hsome : lookupNS baseline l1.Namespace = some b2 := assocFind_mem hnb hb2 hb2ns
    exact absurd (hsome.symm.trans hnone) (by simp)
  · have hl12 : l1 = l2 := hlinj hl1 hl2
      (by rw [← psaLiveOnlyEntry_namespace hs1, ← psaLiveOnlyEntry_namespace hs2, hns])
    rw [hl12] at hs1
    exact Option.some.inj (hs1.symm.trans hs2)

theorem psa_missing_unique {baseline live : List NamespacePSA}
    (hnb : (baseline.map (fun x => x.Namespace)).Nodup) :
    ∀ e1 ∈ (DiffPSA baseline live).Missing, ∀ e2 ∈ (DiffPSA baseline live).Missing,
      e1.Namespace = e2.Namespace → e1 = e2 := by
  have hbinj := List.inj_on_of_nodup_map hnb
  intro e1 h1 e2 h2 hns
  obtain ⟨b1, hb1, hs1⟩ := mem_diffPSA_missing.1 h1
  obtain ⟨b2, hb2, hs2⟩ := mem_diffPSA_missing.1 h2
  have hb12 : b1 = b2 := hbinj hb1 hb2
    (by rw [← psaMissingEntry_namespace hs1, ← psaMissingEntry_namespace hs2, hns])
  rw [hb12] at hs1
  exact Option.some.inj (hs1.symm.trans hs2)

theorem driftLookup_missing_congr {A A' B B' : RBACSnapshot}
    (hA : RBACSnapshotEquiv A A') (hB : RBACSnapshotEquiv B B') (subj : SubjectKey) :
    OptPermEquiv (driftLookup (DiffRBAC A B).Missing subj)
      (driftLookup (DiffRBAC A' B').Missing subj) := by
  rw [driftLookup_diffRBAC_missing, driftLookup_diffRBAC_missing,
    missingOf_eq_extraOf, missingOf_eq_extraOf]
  by_cases h1 : subj ∈ unionSubjects A B
  · rw [if_pos h1]
    by_cases h2 : subj ∈ unionSubjects A' B'
    · rw [if_pos h2]
      exact extraOf_congr hB hA subj
    · rw [if_neg h2]
      have hnil := (not_mem_unionSubjects_nil h2).1
      have hperm := hA subj
      rw [hnil] at hperm
      rw [extraOf_none_of_live_nil hperm.eq_nil]
      exact trivial
  · rw [if_neg h1]
    by_cases h2 : subj ∈ unionSubjects A' B'
    · rw [if_pos h2]
      have hnil := (not_mem_unionSubjects_nil h1).1
      have hperm := (hA subj).symm
      rw [hnil] at hperm
      rw [extraOf_none_of_live_nil hperm.eq_nil]
      exact trivial
    · rw [if_neg h2]
      exact trivial

theorem diffNetPol_deterministic {b b' l l' : NetPolSnapshot}
    (hpb : b.Items.Perm b'.Items) (hpl : l.Items.Perm l'.Items)
    (hnb : (b.Items.map Prod.fst).Nodup) (hnl : (l.Items.map Prod.fst).Nodup)
    (hwb : NetPolWF b) :
    DiffNetworkPolicies b l = DiffNetworkPolicies b' l' := by
  have hfM : ∀ k, netpolMissingEntry b l k = netpolMissingEntry b' l' k := by
    intro k
    unfold netpolMissingEntry
    rw [lookupItem_congr hpb hnb k, lookupItem_congr hpl hnl k]
  have hfE : ∀ k, netpolExtraEntry b l k = netpolExtraEntry b' l' k := by
    intro k
    unfold netpolExtraEntry
    rw [lookupItem_congr hpb hnb k, lookupItem_congr hpl hnl k]
  have hfC : ∀ k, netpolChangedEntry b l k = netpolChangedEntry b' l' k := by
    intro k
    unfold netpolChangedEntry
    rw [lookupItem_congr hpb hnb k, lookupItem_congr hpl hnl k]
  have hkeys := unionKeys_perm hpb hpl
  have hpreM : ((unionKeys b l).filterMap (netpolMissingEntry b l)).Perm
      ((unionKeys b' l').filterMap (netpolMissingEntry b' l')) := by
    have h1 := hkeys.filterMap (netpolMissingEntry b l)
    have h2 : List.filterMap (netpolMissingEntry b l) (unionKeys b' l') =
        List.filterMap (netpolMissingEntry b' l') (unionKeys b' l') :=
      List.filterMap_congr (fun k _ => hfM k)
    rw [h2] at h1
    exact h1
  have hpreE : ((unionKeys b l).filterMap (netpolExtraEntry b l)).Perm
      ((unionKeys b' l').filterMap (netpolExtraEntry b' l')) := by
    have h1 := hkeys.filterMap (netpolExtraEntry b l)
    have h2 : List.filterMap (netpolExtraEntry b l) (unionKeys b' l') =
        List.filterMap (netpolExtraEntry b' l') (unionKeys b' l') :=
      List.filterMap_congr (fun k _ => hfE k)
    rw [h2] at h1
    exact h1
  have hpreC : ((unionKeys b l).filterMap (netpolChangedEntry b l)).Perm
      ((unionKeys b' l').filterMap (netpolChangedEntry b' l')) := by
    have h1 := hkeys.filterMap (netpolChangedEntry b l)
    have h2 : List.filterMap (netpolChangedEntry b l) (unionKeys b' l') =
        List.filterMap (netpolChangedEntry b' l') (unionKeys b' l') :=
      List.filterMap_congr (fun k _ => hfC k)
    rw [h2] at h1
    exact h1
  have hM : sortBy refLe ((unionKeys b l).filterMap (netpolMissingEntry b l)) =
      sortBy refLe ((unionKeys b' l').filterMap (netpolMissingEntry b' l')) := by
    refine pairwise_perm_eq
      ((sortBy_perm refLe _).trans (hpreM.trans (sortBy_perm refLe _).symm))
      (sortBy_pairwise refLe refLe_total refLe_trans _)
      (sortBy_pairwise refLe refLe_total refLe_trans _) ?_
    intro x _ y _ hxy hyx
    exact refLe_antisymm hxy hyx
  have hE : sortBy refLe ((unionKeys b l).filterMap (netpolExtraEntry b l)) =
      sortBy refLe ((unionKeys b' l').filterMap (netpolExtraEntry b' l')) := by
    refine pairwise_perm_eq
      ((sortBy_perm refLe _).trans (hpreE.trans (sortBy_perm refLe _).symm))
      (sortBy_pairwise refLe refLe_total refLe_trans _)
      (sortBy_pairwise refLe refLe_total refLe_trans _) ?_
    intro x _ y _ hxy hyx
    exact refLe_antisymm hxy hyx
  have hC : sortBy changeLe ((unionKeys b l).filterMap (netpolChangedEntry b l)) =
      sortBy changeLe ((unionKeys b' l').filterMap (netpolChangedEntry b' l')) := by
    refine pairwise_perm_eq
      ((sortBy_perm changeLe _).trans (hpreC.trans (sortBy_perm changeLe _).symm))
      (sortBy_pairwise changeLe changeLe_total changeLe_trans _)
      (sortBy_pairwise changeLe changeLe_total changeLe_trans _) ?_
    intro x hx y hy hxy hyx
    exact diffNetPol_changed_unique hwb x hx y hy hxy hyx
  calc DiffNetworkPolicies b l
      = ⟨sortBy refLe ((unionKeys b l).filterMap (netpolMissingEntry b l)),
         sortBy refLe ((unionKeys b l).filterMap (netpolExtraEntry b l)),
         sortBy changeLe ((unionKeys b l).filterMap (netpolChangedEntry b l))⟩ := rfl
    _ = ⟨sortBy refLe ((unionKeys b' l').filterMap (netpolMissingEntry b' l')),
         sortBy refLe ((unionKeys b' l').filterMap (netpolExtraEntry b' l')),
         sortBy changeLe ((unionKeys b' l').filterMap (netpolChangedEntry b' l'))⟩ := by
        rw [hM, hE, hC]
    _ = DiffNetworkPolicies b' l' := rfl

theorem diffPSA_deterministic {b b' l l' : List NamespacePSA}
    (hpb : b.Perm b') (hpl : l.Perm l')
    (hnb : (b.map (fun x => x.Namespace)).Nodup)
    (hnl : (l.map (fun x => x.Namespace)).Nodup) :
    DiffPSA b l = DiffPSA b' l' := by
  have hfE : ∀ x, psaExtraEntry l x = psaExtraEntry l' x := by
    intro x
    unfold psaExtraEntry
    rw [lookupNS_congr hpl hnl x.Namespace]
  have hfM : ∀ x, psaMissingEntry l x = psaMissingEntry l' x := by
    intro x
    unfold psaMissingEntry
    rw [lookupNS_congr hpl hnl x.Namespace]
  have hfLO : ∀ x, psaLiveOnlyEntry b x = psaLiveOnlyEntry b' x := by
    intro x
    unfold psaLiveOnlyEntry
    rw [lookupNS_congr hpb hnb x.Namespace]
  have hpreE : (b.filterMap (psaExtraEntry l) ++ l.filterMap (psaLiveOnlyEntry b)).Perm
      (b'.filterMap (psaExtraEntry l') ++ l'.filterMap (psaLiveOnlyEntry b')) := by
    refine List.Perm.append ?_ ?_
    · have h1 := hpb.filterMap (psaExtraEntry l)
      have h2 : List.filterMap (psaExtraEntry l) b' =
          List.filterMap (psaExtraEntry l') b' :=
        List.filterMap_congr (fun x _ => hfE x)
      rw [h2] at h1
      exact h1
    · have h1 := hpl.filterMap (psaLiveOnlyEntry b)
      have h2 : List.filterMap (psaLiveOnlyEntry b) l' =
          List.filterMap (psaLiveOnlyEntry b') l' :=
        List.filterMap_congr (fun x _ => hfLO x)
      rw [h2] at h1
      exact h1
  have hpreM : (b.filterMap (psaMissingEntry l)).Perm
      (b'.filterMap (psaMissingEntry l')) := by
    have h1 := hpb.filterMap (psaMissingEntry l)
    have h2 : List.filterMap (psaMissingEntry l) b' =
        List.filterMap (psaMissingEntry l') b' :=
      List.filterMap_congr (fun x _ => hfM x)
    rw [h2] at h1
    exact h1
  have hE : sortBy psaEntryLe (b.filterMap (psaExtraEntry l) ++
        l.filterMap (psaLiveOnlyEntry b)) =
      sortBy psaEntryLe (b'.filterMap (psaExtraEntry l') ++
        l'.filterMap (psaLiveOnlyEntry b')) := by
    refine pairwise_perm_eq
      ((sortBy_perm psaEntryLe _).trans (hpreE.trans (sortBy_perm psaEntryLe _).symm))
      (sortBy_pairwise psaEntryLe psaEntryLe_total psaEntryLe_trans _)
      (sortBy_pairwise psaEntryLe psaEntryLe_total psaEntryLe_trans _) ?_
    intro x hx y hy hxy hyx
    exact psa_extra_unique hnb hnl x hx y hy (strLe_antisymm hxy hyx)
  have hM : sortBy psaEntryLe (b.filterMap (psaMissingEntry l)) =
      sortBy psaEntryLe (b'.filterMap (psaMissingEntry l')) := by
    refine pairwise_perm_eq
      ((sortBy_perm psaEntryLe _).trans (hpreM.trans (sortBy_perm psaEntryLe _).symm))
      (sortBy_pairwise psaEntryLe psaEntryLe_total psaEntryLe_trans _)
      (sortBy_pairwise psaEntryLe psaEntryLe_total psaEntryLe_trans _) ?_
    intro x hx y hy hxy hyx
    exact psa_missing_unique hnb x hx y hy (strLe_antisymm hxy hyx)
  calc DiffPSA b l
      = ⟨sortBy psaEntryLe (b.filterMap (psaExtraEntry l) ++
          l.filterMap (psaLiveOnlyEntry b)),
         sortBy psaEntryLe (b.filterMap (psaMissingEntry l))⟩ := rfl
    _ = ⟨sortBy psaEntryLe (b'.filterMap (psaExtraEntry l') ++
          l'.filterMap (psaLiveOnlyEntry b')),
         sortBy psaEntryLe (b'.filterMap (psaMissingEntry l'))⟩ := by rw [hE, hM]
    _ = DiffPSA b' l' := rfl

/-- Two representations of the same RBAC snapshot value, differing only in
the iteration order of the one subject's permission set. -/
def rbacRepA : RBACSnapshot :=
  ⟨[(⟨"User", "u", ""⟩,
     [⟨"*", "", "pods", "*", "get", ""⟩, ⟨"*", "", "pods", "*", "list", ""⟩])]⟩

def rbacRepB : RBACSnapshot :=
  ⟨[(⟨"User", "u", ""⟩,
     [⟨"*", "", "pods", "*", "list", ""⟩, ⟨"*", "", "pods", "*", "get", ""⟩])]⟩

/-- C9 counterexample: `DiffRBAC` is not deterministic at the level of the
emitted permission lists — two representations of the same snapshot value
(same subjects, same permission sets, different set-iteration order, as a Go
map produces across runs) yield different `DiffRBAC` results. -/
theorem C9_counterexample_diffRBAC_order :
    RBACSnapshotEquiv rbacRepA rbacRepB ∧
    rbacRepA.Subjects.map Prod.fst = rbacRepB.Subjects.map Prod.fst ∧
    DiffRBAC ⟨[]⟩ rbacRepA ≠ DiffRBAC ⟨[]⟩ rbacRepB := by
  refine ⟨?_, by decide, by decide⟩
  intro k
  by_cases h : (⟨"User", "u", ""⟩ : SubjectKey) = k
  · have e1 : assocFind Prod.fst rbacRepA.Subjects k =
        some (⟨"User", "u", ""⟩,
          [⟨"*", "", "pods", "*", "get", ""⟩, ⟨"*", "", "pods", "*", "list", ""⟩]) := by
      unfold rbacRepA assocFind
      exact List.find?_cons_of_pos _ (by simpa using h)
    have e2 : assocFind Prod.fst rbacRepB.Subjects k =
        some (⟨"User", "u", ""⟩,
          [⟨"*", "", "pods", "*", "list", ""⟩, ⟨"*", "", "pods", "*", "get", ""⟩]) := by
      unfold rbacRepB assocFind
      exact List.find?_cons_of_pos _ (by simpa using h)
    rw [subjectPerms_of_some e1, subjectPerms_of_some e2]
    exact List.Perm.swap _ _ []
  · have e1 : assocFind Prod.fst rbacRepA.Subjects k = none := by
      unfold rbacRepA assocFind
      rw [List.find?_cons_of_neg _ (by simpa using h)]
      rfl
    have e2 : assocFind Prod.fst rbacRepB.Subjects k = none := by
      unfold rbacRepB assocFind
      rw [List.find?_cons_of_neg _ (by simpa using h)]
      rfl
    rw [subjectPerms_of_none e1, subjectPerms_of_none e2]

/-- C9 (amended): the NetworkPolicy and PSA differs are deterministic —
equal snapshot values (any representation of the same maps) give identical
output including element order — while the RBAC differ is deterministic only
up to the order of elements within each per-subject permission list: its
Extra and Missing mappings agree subject-wise with the permission lists
equal as sets. -/
theorem C9_differs_deterministic_amended :
    (∀ A A' B B' : RBACSnapshot, RBACSnapshotEquiv A A' → RBACSnapshotEquiv B B' →
      ∀ subj, OptPermEquiv (driftLookup (DiffRBAC A B).Extra subj)
          (driftLookup (DiffRBAC A' B').Extra subj) ∧
        OptPermEquiv (driftLookup (DiffRBAC A B).Missing subj)
          (driftLookup (DiffRBAC A' B').Missing subj)) ∧
    (∀ b b' l l' : NetPolSnapshot, b.Items.Perm b'.Items → l.Items.Perm l'.Items →
      (b.Items.map Prod.fst).Nodup → (l.Items.map Prod.fst).Nodup → NetPolWF b →
      DiffNetworkPolicies b l = DiffNetworkPolicies b' l') ∧
    (∀ b b' l l' : List NamespacePSA, b.Perm b' → l.Perm l' →
      (b.map (fun x => x.Namespace)).Nodup → (l.map (fun x => x.Namespace)).Nodup →
      DiffPSA b l = DiffPSA b' l') := by
  refine ⟨?_, ?_, ?_⟩
  · intro A A' B B' hA hB subj
    exact ⟨driftLookup_extra_congr hA hB subj, driftLookup_missing_congr hA hB subj⟩
  · intro b b' l l' hpb hpl hnb hnl hwb
    exact diffNetPol_deterministic hpb hpl hnb hnl hwb
  · intro b b' l l' hpb hpl hnb hnl
    exact diffPSA_deterministic hpb hpl hnb hnl

/-- Witness for the amended C9 on concrete permuted snapshot
representations. -/
theorem C9_differs_deterministic_amended_witness :
    DiffNetworkPolicies ⟨[("a/x", ⟨"a", "x", "h1", [], 0, 0⟩),
        ("b/y", ⟨"b", "y", "h2", [], 1, 0⟩)]⟩
      ⟨[("a/x", ⟨"a", "x", "h3", [], 2, 0⟩)]⟩ =
    DiffNetworkPolicies ⟨[("b/y", ⟨"b", "y", "h2", [], 1, 0⟩),
        ("a/x", ⟨"a", "x", "h1", [], 0, 0⟩)]⟩
      ⟨[("a/x", ⟨"a", "x", "h3", [], 2, 0⟩)]⟩ ∧
    DiffPSA [⟨"a", "restricted", "", ""⟩, ⟨"b", "baseline", "", ""⟩]
      [⟨"b", "privileged", "", ""⟩] =
    DiffPSA [⟨"b", "baseline", "", ""⟩, ⟨"a", "restricted", "", ""⟩]
      [⟨"b", "privileged", "", ""⟩] :=
  ⟨C9_differs_deterministic_amended.2.1
      ⟨[("a/x", ⟨"a", "x", "h1", [], 0, 0⟩), ("b/y", ⟨"b", "y", "h2", [], 1, 0⟩)]⟩
      ⟨[("b/y", ⟨"b", "y", "h2", [], 1, 0⟩), ("a/x", ⟨"a", "x", "h1", [], 0, 0⟩)]⟩
      ⟨[("a/x", ⟨"a", "x", "h3", [], 2, 0⟩)]⟩
      ⟨[("a/x", ⟨"a", "x", "h3", [], 2, 0⟩)]⟩
      (by decide) (by decide) (by decide) (by decide)
      (by intro kv hkv; fin_cases hkv <;> rfl),
   C9_differs_deterministic_amended.2.2
      [⟨"a", "restricted", "", ""⟩, ⟨"b", "baseline", "", ""⟩]
      [⟨"b", "baseline", "", ""⟩, ⟨"a", "restricted", "", ""⟩]
      [⟨"b", "privileged", "", ""⟩] [⟨"b", "privileged", "", ""⟩]
      (by decide) (by decide) (by decide) (by decide)⟩

end Driftwatch
